import Mathlib

set_option maxRecDepth 100000

/-!
Verification of the resumable, shardable batch-job core of the
`oer-acid-stability` repository, against its natural-language specification.

The embedding follows the two driver scripts:
  * `src/retrieve_pourbaix_entries.py`  (the "retrieve" driver)
  * `src/make_pourbaix_diagrams.py`     (the "diagram" driver)

Remote calls, wall-clock time measurement and the external diagram engine are
modelled as oracles/parameters, as the spec scopes them out.  Machine integers
are modelled as `Nat` with explicit reduction modulo `2 ^ 32` where the MD5
algorithm requires 32-bit wraparound.
-/

namespace OerAcid

/-! ## MD5

`string2job` in both scripts hashes the UTF-8 bytes of the key with `md5`,
takes the hex digest as an integer and reduces it modulo `njobs`:

    def string2job(instr, njobs):
        hashed = md5(instr.encode('utf-8')).hexdigest()
        return int(hashed, 16) % njobs

We implement MD5 (RFC 1321) over `List Nat` byte sequences, all words reduced
modulo `2 ^ 32`.
-/

/-- 2 ^ 32, the word modulus of MD5. -/
def M32 : Nat := 4294967296

/-- Bitwise complement inside a 32-bit word. -/
def notw (x : Nat) : Nat := x ^^^ (M32 - 1)

/-- Left-rotation of a 32-bit word by `s` places. -/
def rotl (x s : Nat) : Nat := ((x <<< s) % M32) ||| (x >>> (32 - s))

/-- UTF-8 encoding of a single code point, as bytes. -/
def utf8Char (n : Nat) : List Nat :=
  if n < 128 then [n]
  else if n < 2048 then [192 ||| (n >>> 6), 128 ||| (n &&& 63)]
  else if n < 65536 then
    [224 ||| (n >>> 12), 128 ||| ((n >>> 6) &&& 63), 128 ||| (n &&& 63)]
  else
    [240 ||| (n >>> 18), 128 ||| ((n >>> 12) &&& 63),
     128 ||| ((n >>> 6) &&& 63), 128 ||| (n &&& 63)]

/-- UTF-8 bytes of a string (Python `instr.encode('utf-8')`). -/
def strBytes (s : String) : List Nat :=
  (s.data.map (fun c => utf8Char c.toNat)).flatten

/-- The `i`-th byte (little-endian) of `n`, for `i < k`, as a list of `k` bytes. -/
def leBytes (k n : Nat) : List Nat :=
  (List.range k).map (fun i => n / 256 ^ i % 256)

/-- MD5 padding: append `0x80`, zero bytes to reach 56 mod 64, then the
bit length as a 64-bit little-endian number. -/
def md5Pad (msg : List Nat) : List Nat :=
  let L := msg.length
  let k := (120 - (L + 1) % 64) % 64
  msg ++ [128] ++ List.replicate k 0 ++ leBytes 8 (8 * L % 2 ^ 64)

/-- Group a byte list into little-endian 32-bit words. -/
def leWords : List Nat → List Nat
  | b0 :: b1 :: b2 :: b3 :: rest =>
      (b0 + 256 * b1 + 65536 * b2 + 16777216 * b3) :: leWords rest
  | _ => []

/-- Split a word list into chunks of 16 words, with fuel for structural
recursion. -/
def chunks16 : Nat → List Nat → List (List Nat)
  | 0, _ => []
  | _, [] => []
  | fuel + 1, ws => ws.take 16 :: chunks16 fuel (ws.drop 16)

/-- The MD5 sine-derived constant table `K`. -/
def md5K : List Nat :=
  [0xd76aa478, 0xe8c7b756, 0x242070db, 0xc1bdceee,
   0xf57c0faf, 0x4787c62a, 0xa8304613, 0xfd469501,
   0x698098d8, 0x8b44f7af, 0xffff5bb1, 0x895cd7be,
   0x6b901122, 0xfd987193, 0xa679438e, 0x49b40821,
   0xf61e2562, 0xc040b340, 0x265e5a51, 0xe9b6c7aa,
   0xd62f105d, 0x02441453, 0xd8a1e681, 0xe7d3fbc8,
   0x21e1cde6, 0xc33707d6, 0xf4d50d87, 0x455a14ed,
   0xa9e3e905, 0xfcefa3f8, 0x676f02d9, 0x8d2a4c8a,
   0xfffa3942, 0x8771f681, 0x6d9d6122, 0xfde5380c,
   0xa4beea44, 0x4bdecfa9, 0xf6bb4b60, 0xbebfbc70,
   0x289b7ec6, 0xeaa127fa, 0xd4ef3085, 0x04881d05,
   0xd9d4d039, 0xe6db99e5, 0x1fa27cf8, 0xc4ac5665,
   0xf4292244, 0x432aff97, 0xab9423a7, 0xfc93a039,
   0x655b59c3, 0x8f0ccc92, 0xffeff47d, 0x85845dd1,
   0x6fa87e4f, 0xfe2ce6e0, 0xa3014314, 0x4e0811a1,
   0xf7537e82, 0xbd3af235, 0x2ad7d2bb, 0xeb86d391]

/-- The MD5 per-operation shift table `S`. -/
def md5S : List Nat :=
  [7, 12, 17, 22, 7, 12, 17, 22, 7, 12, 17, 22, 7, 12, 17, 22,
   5, 9, 14, 20, 5, 9, 14, 20, 5, 9, 14, 20, 5, 9, 14, 20,
   4, 11, 16, 23, 4, 11, 16, 23, 4, 11, 16, 23, 4, 11, 16, 23,
   6, 10, 15, 21, 6, 10, 15, 21, 6, 10, 15, 21, 6, 10, 15, 21]

/-- One of the 64 MD5 operations on state `(A, B, C, D)`. -/
def md5Op (m : List Nat) (st : Nat × Nat × Nat × Nat) (i : Nat) :
    Nat × Nat × Nat × Nat :=
  let A := st.1
  let B := st.2.1
  let C := st.2.2.1
  let D := st.2.2.2
  let fg : Nat × Nat :=
    if i < 16 then ((B &&& C) ||| (notw B &&& D), i)
    else if i < 32 then ((D &&& B) ||| (notw D &&& C), (5 * i + 1) % 16)
    else if i < 48 then (B ^^^ C ^^^ D, (3 * i + 5) % 16)
    else (C ^^^ (B ||| notw D), 7 * i % 16)
  let F := (fg.1 + A + md5K.getD i 0 + m.getD fg.2 0) % M32
  (D, (B + rotl F (md5S.getD i 0)) % M32, B, C)

/-- Process one 16-word chunk, updating the 4-word MD5 state. -/
def md5Chunk (st : Nat × Nat × Nat × Nat) (m : List Nat) :
    Nat × Nat × Nat × Nat :=
  let r := (List.range 64).foldl (md5Op m) st
  ((st.1 + r.1) % M32, (st.2.1 + r.2.1) % M32,
   (st.2.2.1 + r.2.2.1) % M32, (st.2.2.2 + r.2.2.2) % M32)

/-- The MD5 digest of a byte sequence, as the integer value of the hex digest
(`int(hexdigest, 16)`): the 16 digest bytes read as a big-endian number. -/
def md5Bytes (msg : List Nat) : Nat :=
  let padded := md5Pad msg
  let ws := leWords padded
  let st := (chunks16 ws.length ws).foldl md5Chunk
    (0x67452301, 0xefcdab89, 0x98badcfe, 0x10325476)
  (leBytes 4 st.1 ++ leBytes 4 st.2.1 ++ leBytes 4 st.2.2.1 ++
     leBytes 4 st.2.2.2).foldl (fun acc b => acc * 256 + b) 0

/-- `int(md5(instr.encode('utf-8')).hexdigest(), 16)`. -/
def md5OfString (s : String) : Nat := md5Bytes (strBytes s)

/-- `string2job` from both scripts.  `njobs` is a Python `int`, modelled as
`Int`; Python `%` with a positive divisor agrees with `Int.emod`.  (For
`njobs = 0` Python raises `ZeroDivisionError`; every claim about sharding
assumes `0 < njobs`, so that path is outside the modelled behaviour.) -/
def string2job (instr : String) (njobs : Int) : Int :=
  (md5OfString instr : Int) % njobs

/-! ## The retrieve driver (`src/retrieve_pourbaix_entries.py`)

One row of a `pourbaix_downloads*.csv.gz` table.  The Python rows are dicts
with a subset of the five columns; a missing cell (`NaN` after the round trip
through pandas) is `none`.  Wall-clock durations are not modelled: the
`download_time` cell is reduced to presence (`some 0`) or absence. -/
structure DownloadRow where
  symbols : String
  nEntries : Option Nat := none
  downloadTime : Option Nat := none
  entriesOutpath : Option String := none
  error : Option String := none
deriving DecidableEq, Repr

/-- The on-disk set of `pourbaix_downloads*` tables, keyed by the optional job
suffix: `none` is `pourbaix_downloads.csv.gz`, `some j` is
`pourbaix_downloads_j.csv.gz`.  A key absent from the list is a missing file;
`some []` is an existing header-only (or byte-empty) table — the script treats
`FileNotFoundError` and `EmptyDataError` the same way on every read involved
here, so both collapse to an empty row list. -/
abbrev DownloadFS : Type := List (Option Int × List DownloadRow)

/-- `pd.read_csv(outtbl_path)` for this run's own table (lines 51-55):
missing or empty collapses to an empty table. -/
def prevOutputOf (fs : DownloadFS) (job : Option Int) : List DownloadRow :=
  (List.lookup job fs).getD []

/-- The union of the `symbols` columns across *all* existing
`pourbaix_downloads*` tables, as collected by the glob loop (lines 63-72).
The glob pattern matches every job suffix, so every table in the filesystem
contributes; the file discovery itself is out of scope per the spec. -/
def prevSymbolsOf (fs : DownloadFS) : List String :=
  (fs.map (fun p => p.2.map (fun r => r.symbols))).flatten

/-- What one call of `mpr.get_pourbaix_entries` does, as classified by the
`except` clauses of the retry loop (lines 183-209).  `transientErr` stands for
`ChunkedEncodingError`, `ConnectionError`, `ProtocolError`, `Timeout`,
`IncompleteRead` and `MPRestError`; `retryErr` for `RetryError` (the inner
urllib3 retry budget exhausted on a retryable status); `httpErr` carries the
response status code; `fatal` is any exception matched by no handler. -/
inductive AttemptResult where
  | success (nEntries : Nat)
  | transientErr (msg : String)
  | valueErr (msg : String)
  | httpErr (status : Nat) (msg : String)
  | retryErr (msg : String)
  | fatal (msg : String)
deriving DecidableEq, Repr

/-- Observable side effects of the retrieve run: `sleep` (seconds),
writing one serialized entries file, and rewriting the output table. -/
inductive REvent where
  | sleep (seconds : Nat)
  | saveEntries (path : String)
  | writeTable (rows : List DownloadRow)
deriving DecidableEq, Repr

/-- `outer_retries = 10` (line 177). -/
def outerRetries : Nat := 10

/-- `outer_delay = 30` seconds (line 180). -/
def outerDelay : Nat := 30

/-- `sleep(600)` on a 429 response (line 203). -/
def rateLimitPause : Nat := 600

/-- Result of the `for attempt in range(1, outer_retries+1)` loop. -/
inductive LoopResult where
  | downloaded (nEntries : Nat)
  | recordedError (msg : String)
  | exhausted
  | fatal (msg : String)
deriving DecidableEq, Repr

/-- The retry loop of lines 183-209.  `oracle attempt` is what the remote call
does on the 1-indexed attempt; `remaining` is how many iterations are left.
On a transient error, a non-429 `HTTPError`, or a `RetryError`, the script
sleeps `outer_delay` and moves to the next attempt; on a 429 it sleeps the
10-minute pause and likewise moves to the next attempt; a `ValueError` appends
an error row and breaks; an unhandled exception propagates. -/
def retryLoop (oracle : Nat → AttemptResult) :
    Nat → Nat → LoopResult × List REvent
  | _, 0 => (.exhausted, [])
  | attempt, remaining + 1 =>
    match oracle attempt with
    | .success n => (.downloaded n, [])
    | .transientErr _ =>
        let r := retryLoop oracle (attempt + 1) remaining
        (r.1, .sleep outerDelay :: r.2)
    | .valueErr m => (.recordedError m, [])
    | .httpErr status _ =>
        if status = 429 then
          let r := retryLoop oracle (attempt + 1) remaining
          (r.1, .sleep rateLimitPause :: r.2)
        else
          let r := retryLoop oracle (attempt + 1) remaining
          (r.1, .sleep outerDelay :: r.2)
    | .retryErr _ =>
        let r := retryLoop oracle (attempt + 1) remaining
        (r.1, .sleep outerDelay :: r.2)
    | .fatal m => (.fatal m, [])

/-- `os.path.join(outdir, chemsys + '.json.gz')` (line 228). -/
def entriesPath (chemsys : String) : String :=
  "pourbaix_entries/" ++ chemsys ++ ".json.gz"

/-- The row recorded for a successful download with zero entries
(lines 214-219): only `symbols` and `n_entries` are set. -/
def zeroRow (chemsys : String) : DownloadRow :=
  { symbols := chemsys, nEntries := some 0 }

/-- The row recorded for a successful nonzero download (lines 214-235). -/
def successRow (chemsys : String) (n : Nat) : DownloadRow :=
  { symbols := chemsys, nEntries := some n, downloadTime := some 0,
    entriesOutpath := some (entriesPath chemsys) }

/-- The row recorded when the service rejects the key with a `ValueError`
(lines 194-198): only `symbols` and `error` are set. -/
def errorRow (chemsys : String) (msg : String) : DownloadRow :=
  { symbols := chemsys, error := some msg }

/-- Per-item terminal state of the driver (spec section 4.5).  `recorded`
carries the row appended to `download_tbl_rows`. -/
inductive ItemStatus where
  | alreadyDone
  | notMyShard
  | recorded (row : DownloadRow)
  | transientSkip
deriving DecidableEq, Repr

/-- Result of one iteration of the `for current_symbols in symbol_combinations`
loop: either a terminal per-item state with its events, or an unclassified
exception that aborts the whole run. -/
inductive ItemStep where
  | ok (status : ItemStatus) (events : List REvent)
  | fatal (msg : String) (events : List REvent)
deriving DecidableEq, Repr

/-- Lines 176-235, the download phase for one item that survived both skip
checks.  `chemsys` is the canonical dash-joined key (computed upstream at line
160 from the symbol set; key derivation from `compositions.csv.gz` is outside
the modelled core).  A successful download with zero entries records a row
with only `symbols` and `n_entries` (lines 214-219); a nonzero download also
writes the serialized entries file and records `download_time` and
`entries_outpath`; a transient exhaustion records nothing (lines 210-213). -/
def attemptPhase (oracle : Nat → AttemptResult) (chemsys : String) : ItemStep :=
  match retryLoop oracle 1 outerRetries with
    | (.downloaded n, es) =>
        if n = 0 then .ok (.recorded (zeroRow chemsys)) es
        else .ok (.recorded (successRow chemsys n))
          (es ++ [.saveEntries (entriesPath chemsys)])
    | (.recordedError m, es) =>
        .ok (.recorded (errorRow chemsys m)) es
    | (.exhausted, es) => .ok .transientSkip es
    | (.fatal m, es) => .fatal m es

/-- Lines 150-235, one work item: the already-done check (line 164) runs
before the shard check (lines 169-174); only for an item surviving both does
the retry loop run. -/
def processItem (prevSymbols : List String) (job : Option Int) (njobs : Int)
    (oracle : Nat → AttemptResult) (chemsys : String) : ItemStep :=
  if chemsys ∈ prevSymbols then .ok .alreadyDone []
  else
    match job with
    | some j =>
        if string2job chemsys njobs ≠ j then .ok .notMyShard []
        else attemptPhase oracle chemsys
    | none => attemptPhase oracle chemsys

/-- The work loop over all items, accumulating statuses, appended rows and
events; an unclassified exception stops the loop, keeping what was already
buffered.  Returns `(statuses, rows, events, fatal message if any)`. -/
def runItems (prevSymbols : List String) (job : Option Int) (njobs : Int)
    (oracle : String → Nat → AttemptResult) :
    List String →
      List (String × ItemStatus) × List DownloadRow × List REvent × Option String
  | [] => ([], [], [], none)
  | k :: rest =>
    match processItem prevSymbols job njobs (oracle k) k with
    | .ok st es =>
        let r := runItems prevSymbols job njobs oracle rest
        ((k, st) :: r.1,
         (match st with | .recorded row => [row] | _ => []) ++ r.2.1,
         es ++ r.2.2.1, r.2.2.2)
    | .fatal m es => ([], [], es, some m)

/-- Terminal errors of the retrieve script: the two `ValueError`s of the
argument check (lines 23-34), and an unclassified exception re-raised after
the `finally` block.  Both give the process a nonzero exit status. -/
inductive RunErr where
  | usage (msg : String)
  | fatal (msg : String)
deriving DecidableEq, Repr

/-- Everything observable about one retrieve run. -/
structure RetrieveOut where
  result : Except RunErr Unit
  statuses : List (String × ItemStatus)
  newRows : List DownloadRow
  events : List REvent
deriving Repr

/-- The whole retrieve script.  `argv` is the list of integer arguments after
the script name (lines 23-34: zero arguments means no sharding, exactly one is
a usage error, two set `(job_number, njobs)`, more than two is a usage error).
The argument check precedes every other action, so a usage error produces no
events.  Otherwise the run loads its own prior table and the glob union, walks
the items, and — in the `finally` block (lines 236-243) — always rewrites the
output table as prior rows followed by the rows buffered this run. -/
def runRetrieve (fs : DownloadFS) (argv : List Int) (items : List String)
    (oracle : String → Nat → AttemptResult) : RetrieveOut :=
  match argv with
  | [] =>
      let prev := prevOutputOf fs none
      let r := runItems (prevSymbolsOf fs) none 0 oracle items
      { result := match r.2.2.2 with
          | none => .ok ()
          | some m => .error (.fatal m)
        statuses := r.1
        newRows := r.2.1
        events := r.2.2.1 ++ [.writeTable (prev ++ r.2.1)] }
  | [j, n] =>
      let prev := prevOutputOf fs (some j)
      let r := runItems (prevSymbolsOf fs) (some j) n oracle items
      { result := match r.2.2.2 with
          | none => .ok ()
          | some m => .error (.fatal m)
        statuses := r.1
        newRows := r.2.1
        events := r.2.2.1 ++ [.writeTable (prev ++ r.2.1)] }
  | [_] =>
      { result := .error (.usage "job number without total number of jobs")
        statuses := [], newRows := [], events := [] }
  | _ =>
      { result := .error (.usage "too many arguments")
        statuses := [], newRows := [], events := [] }

/-- The table carried by a `writeTable` event, if any. -/
def tableOfEvent : REvent → Option (List DownloadRow)
  | .writeTable rows => some rows
  | _ => none

/-- The tables written by a retrieve run, in order. -/
def writtenTables (o : RetrieveOut) : List (List DownloadRow) :=
  o.events.filterMap tableOfEvent

/-! ## The diagram driver (`src/make_pourbaix_diagrams.py`) -/

/-- Code-point lexicographic string order, as Python `sorted` compares
strings. -/
def strLeB : List Char → List Char → Bool
  | [], _ => true
  | _ :: _, [] => false
  | a :: as, b :: bs =>
    if a.toNat < b.toNat then true
    else if b.toNat < a.toNat then false
    else strLeB as bs

/-- Insert into a sorted list of strings. -/
def insertSorted (s : String) : List String → List String
  | [] => [s]
  | t :: ts => if strLeB s.data t.data then s :: t :: ts else t :: insertSorted s ts

/-- Stable ascending sort, as Python `sorted` on strings. -/
def sortStrings : List String → List String
  | [] => []
  | s :: ss => insertSorted s (sortStrings ss)

/-- `'-'.join(sorted(current_symbols))` (line 183). -/
def canonJoin (parts : List String) : String :=
  String.intercalate "-" (sortStrings parts)

/-- `re.match(r'^(mp|mvc)-\d+', entry_id)` and `.group(0)` (lines 191-195):
the id must start with `mp-` or `mvc-` followed by at least one digit, and the
match is that literal plus the maximal run of digits. -/
def matchId (s : String) : Option String :=
  match s.data with
  | 'm' :: 'p' :: '-' :: rest =>
      let ds := rest.takeWhile Char.isDigit
      if ds.isEmpty then none
      else some (String.mk ('m' :: 'p' :: '-' :: ds))
  | 'm' :: 'v' :: 'c' :: '-' :: rest =>
      let ds := rest.takeWhile Char.isDigit
      if ds.isEmpty then none
      else some (String.mk ('m' :: 'v' :: 'c' :: '-' :: ds))
  | _ => none

/-- A deserialized `PourbaixEntry`, reduced to the attributes the driver
reads.  `comp` is the reduced composition with integer amounts: the driver
passes each float amount through `safeint`, which only converts values already
within `1e-5` of an integer, so the modelled composition carries the resulting
integers. -/
structure PEntry where
  name : String
  entryId : String
  phaseType : String
  comp : List (String × Nat)
deriving DecidableEq, Repr

/-- The memoization key: `frozenset(unnormalized_composition.items())`
(lines 216-217), an order-independent set of (symbol, amount) pairs. -/
abbrev GKey : Type := Finset (String × Nat)

/-- The group key of one entry: the composition restricted to the symbols of
the current chemical system (lines 207-210, 216-217). -/
def gkeyOf (currentSymbols : List String) (e : PEntry) : GKey :=
  (e.comp.filter (fun p => currentSymbols.contains p.1)).toFinset

/-- One `(pH, voltage)` condition.  The numeric values are opaque to every
modelled behaviour, so the floats are embedded as integers. -/
abbrev Cond : Type := Int × Int

/-- One row of the diagram-construction (timing) table.  Wall-clock timing is
reduced to presence. -/
structure DiagRow where
  symbols : String
  name : String
  entryId : String
  diagramTime : Nat := 0
deriving DecidableEq, Repr

/-- One row of the decomposition-energy data table. -/
structure DataRow where
  symbols : String
  name : String
  entryId : String
  ph : Int
  voltage : Int
  decompositionEnergy : Int
  lookupTime : Nat := 0
deriving DecidableEq, Repr

/-- The argparse surface of the diagram script (lines 12-33). -/
structure DiagArgs where
  jobNumber : Option Int := none
  njobs : Option Int := none
  globalConditions : Option String := none
  materialConditions : Option String := none
  ph : Option (List Int) := none
  voltage : Option (List Int) := none

/-- Observable effects of the diagram run: the reads of the condition files,
the read of the downloads table, the per-item reads of serialized entries,
and the two final table writes. -/
inductive DEvent where
  | readConditions (path : String)
  | readDownloads
  | readEntries (path : String)
  | writeData (rows : List DataRow)
  | writeDiagrams (rows : List DiagRow)
deriving DecidableEq, Repr

/-- Terminal errors of the diagram script.  The four usage errors are the
`ValueError`s of lines 43, 59, 74 and 81; `missingFile` is an uncaught
`FileNotFoundError` on a required read; `badEntryId` is the `ValueError` of
line 195. -/
inductive DiagErr where
  | usageConditions
  | usageDirect
  | usageShard
  | usageRange
  | missingFile (path : String)
  | badEntryId (entryId : String)
deriving DecidableEq, Repr

/-- Lines 46-51: the read of the global conditions file, if one was given. -/
def readGlobalConditions (args : DiagArgs)
    (condFiles : String → Option (List Cond)) :
    List DEvent × Except DiagErr (List Cond) :=
  match args.globalConditions with
  | none => ([], .ok [])
  | some gpath =>
    match condFiles gpath with
    | none => ([.readConditions gpath], .error (.missingFile gpath))
    | some gconds => ([.readConditions gpath], .ok gconds)

/-- Lines 54-59: the Cartesian product of the direct `--ph` and `--voltage`
values (pH outermost, as `itertools.product`), a usage error if exactly one of
the two was given. -/
def directConditions (args : DiagArgs) : Except DiagErr (List Cond) :=
  match args.ph, args.voltage with
  | some phl, some vl => .ok (phl.flatMap (fun p => vl.map (fun v => (p, v))))
  | none, none => .ok []
  | _, _ => .error .usageDirect

/-- Lines 62-70: the read of the material-specific conditions file. -/
def readMaterialConditions (args : DiagArgs)
    (matFiles : String → Option (List (String × Cond))) :
    List DEvent × Except DiagErr (List (String × Cond)) :=
  match args.materialConditions with
  | none => ([], .ok [])
  | some mpath =>
    match matFiles mpath with
    | none => ([.readConditions mpath], .error (.missingFile mpath))
    | some mrows => ([.readConditions mpath], .ok mrows)

/-- Lines 39-70: the condition-source check and the reads of the two optional
condition files, in program order — the at-least-one-source check first (no
I/O), then the read of the global file, then the direct `--ph`/`--voltage`
product, then the read of the material file.  Returns the events performed and
either an error or `(global conditions, material condition rows)`.  The pandas
`groupby` dict is represented by the row list itself: the lookup for id `m` is
the filter of the rows with that id, in file order, which is exactly what the
grouped dict stores. -/
def startupConditions (args : DiagArgs)
    (condFiles : String → Option (List Cond))
    (matFiles : String → Option (List (String × Cond))) :
    List DEvent × Except DiagErr (List Cond × List (String × Cond)) :=
  if !(args.globalConditions.isSome || args.materialConditions.isSome ||
       (args.ph.isSome && args.voltage.isSome)) then
    ([], .error .usageConditions)
  else
    match readGlobalConditions args condFiles with
    | (evs, .error e) => (evs, .error e)
    | (evs, .ok gconds) =>
      match directConditions args with
      | .error e => (evs, .error e)
      | .ok dconds =>
        match readMaterialConditions args matFiles with
        | (evs2, .error e) => (evs ++ evs2, .error e)
        | (evs2, .ok mrows) => (evs ++ evs2, .ok (gconds ++ dconds, mrows))

/-- Lines 72-84: both shard arguments or neither (else the line-74
`ValueError`), and when both are given, `0 <= job_number < njobs` (else the
line-81 `ValueError`). -/
def checkShard (args : DiagArgs) : Except DiagErr (Option (Int × Int)) :=
  match args.jobNumber, args.njobs with
  | none, none => .ok none
  | some j, some n => if j < 0 ∨ n ≤ j then .error .usageRange else .ok (some (j, n))
  | _, _ => .error .usageShard

/-- The per-item state of the diagram cache loop: the memoization dict
`pourbaix_diagrams`, the rows appended to the two output tables, and the list
of keys for which the expensive constructor actually ran, in order. -/
structure BatchState (α : Type) where
  cache : List (GKey × α) := []
  diagRows : List DiagRow := []
  dataRows : List DataRow := []
  builds : List GKey := []

/-- The combined condition list for one entry (lines 188-197): the global
conditions followed by the material-specific ones for the entry's material
id.  The pandas grouped dict lookup equals the filter of the material rows
with that id, in file order. -/
def condsFor (gconds : List Cond) (mrows : List (String × Cond))
    (mid : String) : List Cond :=
  gconds ++ (mrows.filter (fun r => r.1 == mid)).map (fun r => r.2)

/-- Whether the driver consults the cache for a solid entry: its id parses
and its combined condition list is nonempty (lines 191-201). -/
def wantsBuild (gconds : List Cond) (mrows : List (String × Cond))
    (e : PEntry) : Bool :=
  match matchId e.entryId with
  | none => false
  | some mid => !(condsFor gconds mrows mid).isEmpty

/-- Lines 181-262, the body of the loop over solid entries.  The entry id is
parsed first (a failure is an uncaught `ValueError`); an entry whose combined
condition list is empty is skipped before the cache is consulted; otherwise
the diagram for the entry's group key is taken from the cache or built —
recording one timing row per build and memoizing the result — and one data row
is emitted per condition. -/
def entryStep {α : Type} (currentSymbols : List String)
    (gconds : List Cond) (mrows : List (String × Cond))
    (entries : List PEntry) (buildFn : List PEntry → GKey → α)
    (evalFn : α → PEntry → Cond → Int)
    (st : BatchState α) (e : PEntry) : Except DiagErr (BatchState α) :=
  let canon := canonJoin currentSymbols
  match matchId e.entryId with
  | none => .error (.badEntryId e.entryId)
  | some mid =>
    let conditions := condsFor gconds mrows mid
    if conditions.isEmpty then .ok st
    else
      let gkey := gkeyOf currentSymbols e
      let rowsFor : α → List DataRow := fun d => conditions.map (fun c =>
        { symbols := canon, name := e.name, entryId := e.entryId,
          ph := c.1, voltage := c.2, decompositionEnergy := evalFn d e c })
      match List.lookup gkey st.cache with
      | some d => .ok { st with dataRows := st.dataRows ++ rowsFor d }
      | none =>
          let d := buildFn entries gkey
          .ok { cache := (gkey, d) :: st.cache
                diagRows := st.diagRows ++
                  [{ symbols := canon, name := e.name, entryId := e.entryId }]
                builds := st.builds ++ [gkey]
                dataRows := st.dataRows ++ rowsFor d }

/-- The loop over the solid entries of one work item.  On an uncaught
`ValueError` the state reached so far is kept: the rows already appended to
the module-level lists are flushed by the `finally` block. -/
def entriesLoop {α : Type} (currentSymbols : List String)
    (gconds : List Cond) (mrows : List (String × Cond))
    (entries : List PEntry) (buildFn : List PEntry → GKey → α)
    (evalFn : α → PEntry → Cond → Int)
    (st : BatchState α) : List PEntry → BatchState α × Option DiagErr
  | [] => (st, none)
  | e :: es =>
    match entryStep currentSymbols gconds mrows entries buildFn evalFn st e with
    | .error err => (st, some err)
    | .ok st2 =>
        entriesLoop currentSymbols gconds mrows entries buildFn evalFn st2 es

/-- Per-row terminal state of the diagram driver main loop. -/
inductive DStatus where
  | alreadyDone
  | missingInput
  | notMyShard
  | processed
deriving DecidableEq, Repr

/-- Result of one iteration of the loop over downloads-table rows. -/
inductive DRowRes where
  | skip (status : DStatus)
  | done (diagRows : List DiagRow) (dataRows : List DataRow) (builds : List GKey)
      (events : List DEvent)
  | fatal (err : DiagErr) (diagRows : List DiagRow) (dataRows : List DataRow)
      (builds : List GKey) (events : List DEvent)

/-- Lines 142-262, one downloads-table row.  In program order: the
already-done check against the symbols of this run's own prior diagram table
(line 148), the missing-entries-path check (line 159), the shard check
(lines 163-167), then the read of the serialized entries and the cache loop
over the solid entries with a fresh cache (line 180). -/
def processDiagRow {α : Type} (prevSymbols : List String)
    (shard : Option (Int × Int))
    (gconds : List Cond) (mrows : List (String × Cond))
    (entriesFs : String → Option (List PEntry))
    (buildFn : List PEntry → GKey → α) (evalFn : α → PEntry → Cond → Int)
    (row : DownloadRow) : DRowRes :=
  let chemsys := row.symbols
  if chemsys ∈ prevSymbols then .skip .alreadyDone
  else
    match row.entriesOutpath with
    | none => .skip .missingInput
    | some inpath =>
      let currentSymbols := chemsys.splitOn "-"
      let shardSkip : Bool :=
        match shard with
        | some jn => string2job chemsys jn.2 ≠ jn.1
        | none => false
      if shardSkip then .skip .notMyShard
      else
        match entriesFs inpath with
        | none => .fatal (.missingFile inpath) [] [] [] [.readEntries inpath]
        | some entries =>
          let solids := entries.filter (fun e => e.phaseType == "Solid")
          let r := entriesLoop currentSymbols gconds mrows entries buildFn evalFn
            {} solids
          match r.2 with
          | none => .done r.1.diagRows r.1.dataRows r.1.builds [.readEntries inpath]
          | some err =>
              .fatal err r.1.diagRows r.1.dataRows r.1.builds [.readEntries inpath]

/-- Accumulated outcome of the loop over all downloads-table rows. -/
structure DiagLoopOut where
  statuses : List (String × DStatus)
  diagRows : List DiagRow
  dataRows : List DataRow
  builds : List GKey
  events : List DEvent
  err : Option DiagErr

/-- The loop over all rows of the downloads table; an uncaught exception stops
it, keeping the rows buffered so far. -/
def runDiagRows {α : Type} (prevSymbols : List String)
    (shard : Option (Int × Int))
    (gconds : List Cond) (mrows : List (String × Cond))
    (entriesFs : String → Option (List PEntry))
    (buildFn : List PEntry → GKey → α) (evalFn : α → PEntry → Cond → Int) :
    List DownloadRow → DiagLoopOut
  | [] => ⟨[], [], [], [], [], none⟩
  | row :: rest =>
    match processDiagRow prevSymbols shard gconds mrows entriesFs buildFn evalFn
        row with
    | .skip st =>
        let r := runDiagRows prevSymbols shard gconds mrows entriesFs buildFn
          evalFn rest
        ⟨(row.symbols, st) :: r.statuses, r.diagRows, r.dataRows, r.builds,
         r.events, r.err⟩
    | .done dr da b ev =>
        let r := runDiagRows prevSymbols shard gconds mrows entriesFs buildFn
          evalFn rest
        ⟨(row.symbols, .processed) :: r.statuses, dr ++ r.diagRows,
         da ++ r.dataRows, b ++ r.builds, ev ++ r.events, r.err⟩
    | .fatal err dr da b ev => ⟨[], dr, da, b, ev, some err⟩

/-- Everything observable about one diagram run. -/
structure DiagOut where
  result : Except DiagErr Unit
  statuses : List (String × DStatus)
  newDataRows : List DataRow
  newDiagRows : List DiagRow
  events : List DEvent
deriving Repr

/-- The whole diagram script.  Startup order as in the source: condition
sources (lines 39-70), shard arguments (lines 72-84), the read of
`pourbaix_downloads.csv.gz` (line 117) — note this is always the unnumbered
file — then the reads of this run's own two output tables (lines 130-139),
whose absence or emptiness yields empty tables, the `symbols` column of the
own prior diagram table being the already-done set.  The main loop runs under
`try/finally` (lines 141, 264-272): whatever ends it, the data table and then
the diagram table are rewritten as prior rows followed by this run's rows. -/
def runDiag {α : Type} (args : DiagArgs)
    (condFiles : String → Option (List Cond))
    (matFiles : String → Option (List (String × Cond)))
    (intbl : Option (List DownloadRow))
    (diagFs : List (Option Int × List DiagRow))
    (dataFs : List (Option Int × List DataRow))
    (entriesFs : String → Option (List PEntry))
    (buildFn : List PEntry → GKey → α) (evalFn : α → PEntry → Cond → Int) :
    DiagOut :=
  match startupConditions args condFiles matFiles with
  | (evs, .error e) => ⟨.error e, [], [], [], evs⟩
  | (evs, .ok gm) =>
    match checkShard args with
    | .error e => ⟨.error e, [], [], [], evs⟩
    | .ok shard =>
      match intbl with
      | none =>
          ⟨.error (.missingFile "pourbaix_downloads.csv.gz"), [], [], [],
           evs ++ [.readDownloads]⟩
      | some inrows =>
        let suffix := shard.map (fun p => p.1)
        let oldDiag := (List.lookup suffix diagFs).getD []
        let oldData := (List.lookup suffix dataFs).getD []
        let prevSyms := oldDiag.map (fun r => r.symbols)
        let r := runDiagRows prevSyms shard gm.1 gm.2 entriesFs buildFn evalFn
          inrows
        { result := match r.err with
            | none => .ok ()
            | some e => .error e
          statuses := r.statuses
          newDataRows := r.dataRows
          newDiagRows := r.diagRows
          events := evs ++ [.readDownloads] ++ r.events ++
            [.writeData (oldData ++ r.dataRows),
             .writeDiagrams (oldDiag ++ r.diagRows)] }

/-- The table carried by a `writeData` event, if any. -/
def dataTableOfEvent : DEvent → Option (List DataRow)
  | .writeData rows => some rows
  | _ => none

/-- The table carried by a `writeDiagrams` event, if any. -/
def diagTableOfEvent : DEvent → Option (List DiagRow)
  | .writeDiagrams rows => some rows
  | _ => none

/-- The data tables written by a diagram run, in order. -/
def writtenDataTables (o : DiagOut) : List (List DataRow) :=
  o.events.filterMap dataTableOfEvent

/-- The diagram tables written by a diagram run, in order. -/
def writtenDiagTables (o : DiagOut) : List (List DiagRow) :=
  o.events.filterMap diagTableOfEvent

/-- The transiently-retried failure class of the retry loop: the six
connection-level exceptions, a non-429 `HTTPError`, or a `RetryError` (the
inner retry budget spent on retryable status codes). -/
def transientClass : AttemptResult → Bool
  | .transientErr _ => true
  | .httpErr status _ => status ≠ 429
  | .retryErr _ => true
  | _ => false

/-- The pause the loop makes after a failed attempt before moving on, if the
failure is handled at all. -/
def stepSleep : AttemptResult → Option Nat
  | .transientErr _ => some outerDelay
  | .retryErr _ => some outerDelay
  | .httpErr status _ => if status = 429 then some rateLimitPause else some outerDelay
  | _ => none

/-! ## Helper lemmas -/

theorem mem_prevSymbolsOf {fs : DownloadFS} {suffix : Option Int}
    {tbl : List DownloadRow} {r : DownloadRow}
    (hfs : (suffix, tbl) ∈ fs) (hr : r ∈ tbl) :
    r.symbols ∈ prevSymbolsOf fs := by
  unfold prevSymbolsOf
  rw [List.mem_flatten]
  refine ⟨tbl.map (fun r => r.symbols), ?_, List.mem_map_of_mem _ hr⟩
  exact List.mem_map.mpr ⟨(suffix, tbl), hfs, rfl⟩

theorem string2job_nonneg (k : String) {n : Int} (h : 0 < n) :
    0 ≤ string2job k n :=
  Int.emod_nonneg _ (by omega)

theorem string2job_lt (k : String) {n : Int} (h : 0 < n) :
    string2job k n < n :=
  Int.emod_lt_of_pos _ h

/-- A failed attempt whose failure the loop handles makes it sleep the
corresponding pause and move to the next attempt. -/
theorem retryLoop_succ_sleep {oracle : Nat → AttemptResult} {a r d : Nat}
    (h : stepSleep (oracle a) = some d) :
    retryLoop oracle a (r + 1) =
      ((retryLoop oracle (a + 1) r).1,
        .sleep d :: (retryLoop oracle (a + 1) r).2) := by
  cases horacle : oracle a with
  | success n => rw [horacle] at h; simp [stepSleep] at h
  | valueErr m => rw [horacle] at h; simp [stepSleep] at h
  | fatal m => rw [horacle] at h; simp [stepSleep] at h
  | transientErr m =>
      rw [horacle] at h
      simp only [stepSleep, Option.some.injEq] at h
      subst h
      simp [retryLoop, horacle]
  | retryErr m =>
      rw [horacle] at h
      simp only [stepSleep, Option.some.injEq] at h
      subst h
      simp [retryLoop, horacle]
  | httpErr status m =>
      rw [horacle] at h
      simp only [stepSleep] at h
      by_cases h429 : status = 429
      · rw [if_pos h429] at h
        cases h
        simp [retryLoop, horacle, h429]
      · rw [if_neg h429] at h
        cases h
        simp [retryLoop, horacle, h429]

/-- Every failed attempt of a uniform class makes the loop sleep its pause and
move on, so a run of `r` attempts that all fail the same way produces exactly
`r` sleeps and exhaustion. -/
theorem retryLoop_uniform_sleep {oracle : Nat → AttemptResult} {d : Nat}
    (hall : ∀ i, stepSleep (oracle i) = some d) :
    ∀ r a, retryLoop oracle a r = (.exhausted, List.replicate r (.sleep d)) := by
  intro r
  induction r with
  | zero => intro a; simp [retryLoop]
  | succ r ih =>
    intro a
    rw [retryLoop_succ_sleep (hall a), ih (a + 1)]
    simp [List.replicate_succ]

theorem stepSleep_of_transientClass {a : AttemptResult}
    (h : transientClass a = true) : stepSleep a = some outerDelay := by
  cases a <;> simp_all [transientClass, stepSleep]

theorem processItem_done {prevS : List String} {job : Option Int} {njobs : Int}
    {oracle : Nat → AttemptResult} {k : String} (hk : k ∈ prevS) :
    processItem prevS job njobs oracle k = .ok .alreadyDone [] := by
  unfold processItem
  rw [if_pos hk]

theorem processItem_not_done_mine {prevS : List String} {job : Option Int}
    {njobs : Int} {oracle : Nat → AttemptResult} {k : String}
    (hnew : k ∉ prevS) (hmine : ∀ j, job = some j → string2job k njobs = j) :
    processItem prevS job njobs oracle k = attemptPhase oracle k := by
  unfold processItem
  rw [if_neg hnew]
  cases hjob : job with
  | none => rfl
  | some j =>
      have heq : string2job k njobs = j := hmine j hjob
      simp [heq]

theorem processItem_notMine {prevS : List String} {j njobs : Int}
    {oracle : Nat → AttemptResult} {k : String}
    (hnew : k ∉ prevS) (hoff : string2job k njobs ≠ j) :
    processItem prevS (some j) njobs oracle k = .ok .notMyShard [] := by
  unfold processItem
  rw [if_neg hnew]
  simp [hoff]

/-- C3: for every key `k` and positive shard count `n`, `string2job k n` lies
in `[0, n)`, and there is exactly one shard index `j` in `[0, n)` with
`string2job k n = j`: the shards partition the key space.  (Determinism —
identical results across calls, processes and run orders — holds because
`string2job` is a pure function of `k` and `n` in this embedding, as in the
source, which computes it from the MD5 digest of the key alone.) -/
theorem string2job_partition (k : String) (n : Int) (h : 0 < n) :
    (0 ≤ string2job k n ∧ string2job k n < n) ∧
    ∃! j : Int, 0 ≤ j ∧ j < n ∧ string2job k n = j := by
  refine ⟨⟨string2job_nonneg k h, string2job_lt k h⟩,
    ⟨string2job k n, ⟨string2job_nonneg k h, string2job_lt k h, rfl⟩, ?_⟩⟩
  intro y hy
  exact hy.2.2.symm

/-- Witness for C3 at the key `Fe-O` and three shards. -/
theorem string2job_partition_witness :
    (0 : Int) < 3 ∧
    ((0 ≤ string2job "Fe-O" 3 ∧ string2job "Fe-O" 3 < 3) ∧
      ∃! j : Int, 0 ≤ j ∧ j < 3 ∧ string2job "Fe-O" 3 = j) :=
  ⟨by decide, string2job_partition "Fe-O" 3 (by decide)⟩

/-- C6: a recognized transient failure (connection-class exception, non-429
HTTP status, or exhausted inner retry on a retryable status) makes the client
sleep the constant outer delay of 30 seconds — the backoff formula
`backoff_base * backoff_growth ^ (attempt - 1)` with base `outer_delay` and
growth factor 1 — before the next attempt; after `max_attempts = 10` such
failures the loop gives up, the item ends as a transient skip and no row is
recorded, so the key is absent from the rewritten table (unless a prior table
already held it) and a future run will attempt it again. -/
theorem transient_failures_retry_then_skip
    (oracle : Nat → AttemptResult)
    (hall : ∀ i, transientClass (oracle i) = true)
    (prevSymbols : List String) (job : Option Int) (njobs : Int) (k : String)
    (hnew : k ∉ prevSymbols)
    (hmine : ∀ j, job = some j → string2job k njobs = j) :
    (∀ a r, transientClass (oracle a) = true →
      retryLoop oracle a (r + 1) =
        ((retryLoop oracle (a + 1) r).1,
          .sleep outerDelay :: (retryLoop oracle (a + 1) r).2)) ∧
    retryLoop oracle 1 outerRetries =
      (.exhausted, List.replicate outerRetries (.sleep outerDelay)) ∧
    processItem prevSymbols job njobs oracle k =
      .ok .transientSkip (List.replicate outerRetries (.sleep outerDelay)) := by
  have hsleep : ∀ i, stepSleep (oracle i) = some outerDelay :=
    fun i => stepSleep_of_transientClass (hall i)
  have hloop := retryLoop_uniform_sleep hsleep
  refine ⟨?_, hloop outerRetries 1, ?_⟩
  · intro a r ha
    exact retryLoop_succ_sleep (stepSleep_of_transientClass ha)
  · unfold processItem
    rw [if_neg hnew]
    have hattempt : attemptPhase oracle k =
        .ok .transientSkip (List.replicate outerRetries (.sleep outerDelay)) := by
      unfold attemptPhase
      rw [hloop outerRetries 1]
    cases hjob : job with
    | none => exact hattempt
    | some j =>
        have heq : string2job k njobs = j := hmine j hjob
        simp [heq, hattempt]

/-- Witness for C6: an always-resetting connection, no sharding. -/
theorem transient_failures_retry_then_skip_witness :
    (∀ a r, transientClass ((fun _ => AttemptResult.transientErr "reset") a) = true →
      retryLoop (fun _ => AttemptResult.transientErr "reset") a (r + 1) =
        ((retryLoop (fun _ => AttemptResult.transientErr "reset") (a + 1) r).1,
          .sleep outerDelay ::
            (retryLoop (fun _ => AttemptResult.transientErr "reset") (a + 1) r).2)) ∧
    retryLoop (fun _ => AttemptResult.transientErr "reset") 1 outerRetries =
      (.exhausted, List.replicate outerRetries (.sleep outerDelay)) ∧
    processItem [] none 7 (fun _ => AttemptResult.transientErr "reset") "Fe" =
      .ok .transientSkip (List.replicate outerRetries (.sleep outerDelay)) :=
  transient_failures_retry_then_skip (fun _ => AttemptResult.transientErr "reset")
    (fun _ => rfl) [] none 7 "Fe" (by simp) (fun j hj => by cases hj)

/-- C5, counterexample: a key whose every attempt is answered with status 429
is *not* retried indefinitely within the run.  The loop makes exactly
`outer_retries = 10` attempts — each 429 consumes one iteration of
`for attempt in range(1, outer_retries+1)` — sleeps the 10-minute pause ten
times, ends exhausted, and the driver abandons the key for this run. -/
theorem rate_limited_key_abandoned_after_max_attempts :
    retryLoop (fun _ => AttemptResult.httpErr 429 "Too Many Requests") 1
        outerRetries =
      (.exhausted, List.replicate outerRetries (.sleep rateLimitPause)) ∧
    processItem [] none 2 (fun _ => AttemptResult.httpErr 429 "Too Many Requests")
        "Fe" =
      .ok .transientSkip (List.replicate outerRetries (.sleep rateLimitPause)) := by
  constructor <;> rfl

/-- C5, amended: on a 429 response the client sleeps `rate_limit_pause`
(600 seconds, against 30 for other handled failures) and then re-attempts the
same key, but each such pause consumes one of the `max_attempts = 10` outer
attempts; a key that receives only rate-limit responses is therefore abandoned
after `max_attempts` within the run — left unrecorded, like a transient
failure, so a future run retries it. -/
theorem rate_limit_pause_and_retry
    (oracle : Nat → AttemptResult) (a r : Nat) (m : String)
    (h : oracle a = .httpErr 429 m)
    (orc : Nat → AttemptResult) (hall : ∀ i, ∃ s, orc i = .httpErr 429 s)
    (prevS : List String) (job : Option Int) (njobs : Int) (k : String)
    (hnew : k ∉ prevS) (hmine : ∀ j, job = some j → string2job k njobs = j) :
    retryLoop oracle a (r + 1) =
      ((retryLoop oracle (a + 1) r).1,
        .sleep rateLimitPause :: (retryLoop oracle (a + 1) r).2) ∧
    retryLoop orc 1 outerRetries =
      (.exhausted, List.replicate outerRetries (.sleep rateLimitPause)) ∧
    processItem prevS job njobs orc k =
      .ok .transientSkip (List.replicate outerRetries (.sleep rateLimitPause)) := by
  have hstep : stepSleep (oracle a) = some rateLimitPause := by
    rw [h]; simp [stepSleep]
  have hsleep : ∀ i, stepSleep (orc i) = some rateLimitPause := by
    intro i
    obtain ⟨s, hs⟩ := hall i
    rw [hs]; simp [stepSleep]
  have hloop := retryLoop_uniform_sleep hsleep outerRetries 1
  refine ⟨retryLoop_succ_sleep hstep, hloop, ?_⟩
  rw [processItem_not_done_mine hnew hmine]
  unfold attemptPhase
  rw [hloop]

/-- Witness for C5 (amended) at a concrete always-429 oracle, first attempt,
no sharding. -/
theorem rate_limit_pause_and_retry_witness :
    retryLoop (fun _ => AttemptResult.httpErr 429 "slow down") 1 (9 + 1) =
      ((retryLoop (fun _ => AttemptResult.httpErr 429 "slow down") (1 + 1) 9).1,
        .sleep rateLimitPause ::
          (retryLoop (fun _ => AttemptResult.httpErr 429 "slow down") (1 + 1) 9).2) ∧
    retryLoop (fun _ => AttemptResult.httpErr 429 "slow down") 1 outerRetries =
      (.exhausted, List.replicate outerRetries (.sleep rateLimitPause)) ∧
    processItem ["Cu"] none 3 (fun _ => AttemptResult.httpErr 429 "slow down")
        "Ag" =
      .ok .transientSkip (List.replicate outerRetries (.sleep rateLimitPause)) :=
  rate_limit_pause_and_retry (fun _ => AttemptResult.httpErr 429 "slow down")
    1 9 "slow down" rfl (fun _ => AttemptResult.httpErr 429 "slow down")
    (fun _ => ⟨"slow down", rfl⟩) ["Cu"] none 3 "Ag" (by decide)
    (fun j hj => by cases hj)

theorem retryLoop_events_sleep {oracle : Nat → AttemptResult} :
    ∀ r a e, e ∈ (retryLoop oracle a r).2 → ∃ s, e = .sleep s := by
  intro r
  induction r with
  | zero => intro a e he; simp [retryLoop] at he
  | succ r ih =>
    intro a e he
    cases horacle : oracle a with
    | success n => rw [retryLoop, horacle] at he; simp at he
    | valueErr m => rw [retryLoop, horacle] at he; simp at he
    | fatal m => rw [retryLoop, horacle] at he; simp at he
    | transientErr m =>
        rw [retryLoop, horacle] at he
        simp only [List.mem_cons] at he
        rcases he with rfl | he
        · exact ⟨outerDelay, rfl⟩
        · exact ih (a + 1) e he
    | retryErr m =>
        rw [retryLoop, horacle] at he
        simp only [List.mem_cons] at he
        rcases he with rfl | he
        · exact ⟨outerDelay, rfl⟩
        · exact ih (a + 1) e he
    | httpErr status m =>
        rw [retryLoop, horacle] at he
        dsimp only at he
        by_cases h429 : status = 429
        · rw [if_pos h429] at he
          simp only [List.mem_cons] at he
          rcases he with rfl | he
          · exact ⟨rateLimitPause, rfl⟩
          · exact ih (a + 1) e he
        · rw [if_neg h429] at he
          simp only [List.mem_cons] at he
          rcases he with rfl | he
          · exact ⟨outerDelay, rfl⟩
          · exact ih (a + 1) e he

/-- The events of one item step, whichever way it ended. -/
def eventsOfStep : ItemStep → List REvent
  | .ok _ es => es
  | .fatal _ es => es

theorem retryLoop_no_write {oracle : Nat → AttemptResult} {a r : Nat} :
    ((retryLoop oracle a r).2).filterMap tableOfEvent = [] := by
  rw [List.filterMap_eq_nil_iff]
  intro e he
  obtain ⟨s, rfl⟩ := retryLoop_events_sleep r a e he
  rfl

theorem attemptPhase_no_write {oracle : Nat → AttemptResult} {k : String} :
    (eventsOfStep (attemptPhase oracle k)).filterMap tableOfEvent = [] := by
  unfold attemptPhase
  rcases hr : retryLoop oracle 1 outerRetries with ⟨res, es⟩
  have hes : es.filterMap tableOfEvent = [] := by
    have h2 := @retryLoop_no_write oracle 1 outerRetries
    rwa [hr] at h2
  cases res with
  | downloaded n =>
      by_cases h0 : n = 0
      · simp [h0, eventsOfStep, hes]
      · simp [h0, eventsOfStep, List.filterMap_append, hes, tableOfEvent]
  | recordedError m => simpa [eventsOfStep] using hes
  | exhausted => simpa [eventsOfStep] using hes
  | fatal m => simpa [eventsOfStep] using hes

theorem processItem_no_write {prevS : List String} {job : Option Int}
    {njobs : Int} {oracle : Nat → AttemptResult} {k : String} :
    (eventsOfStep (processItem prevS job njobs oracle k)).filterMap
      tableOfEvent = [] := by
  unfold processItem
  by_cases hk : k ∈ prevS
  · simp [hk, eventsOfStep]
  · rw [if_neg hk]
    cases job with
    | none => exact attemptPhase_no_write
    | some j =>
        by_cases hoff : string2job k njobs ≠ j
        · simp [hoff, eventsOfStep]
        · simp only [if_neg hoff]
          exact attemptPhase_no_write

theorem runItems_no_write {prevS : List String} {job : Option Int}
    {njobs : Int} {oracle : String → Nat → AttemptResult} :
    ∀ items : List String,
      ((runItems prevS job njobs oracle items).2.2.1).filterMap tableOfEvent
        = [] := by
  intro items
  induction items with
  | nil => rfl
  | cons k rest ih =>
    rw [runItems]
    cases hp : processItem prevS job njobs (oracle k) k with
    | ok st es =>
        have hes : es.filterMap tableOfEvent = [] := by
          have h2 := @processItem_no_write prevS job njobs (oracle k) k
          rw [hp] at h2
          exact h2
        dsimp only
        simp [List.filterMap_append, hes, ih]
    | fatal m es =>
        have hes : es.filterMap tableOfEvent = [] := by
          have h2 := @processItem_no_write prevS job njobs (oracle k) k
          rw [hp] at h2
          exact h2
        dsimp only
        exact hes

/-- C2 (retrieve script): for every filesystem, item list and remote
behaviour — including oracles that end the run in an unclassified exception —
the run performs exactly one table write, whose content is the prior on-disk
rows of this run's own table followed by the rows buffered during the run, in
that order.  The two conjuncts are the unsharded and sharded invocations. -/
theorem retrieve_flush_exactly_once
    (fs : DownloadFS) (items : List String)
    (oracle : String → Nat → AttemptResult) (j n : Int) :
    writtenTables (runRetrieve fs [] items oracle) =
      [prevOutputOf fs none ++ (runRetrieve fs [] items oracle).newRows] ∧
    writtenTables (runRetrieve fs [j, n] items oracle) =
      [prevOutputOf fs (some j) ++ (runRetrieve fs [j, n] items oracle).newRows]
    := by
  constructor
  · show ((runItems (prevSymbolsOf fs) none 0 oracle items).2.2.1 ++
        [REvent.writeTable (prevOutputOf fs none ++
          (runItems (prevSymbolsOf fs) none 0 oracle items).2.1)]).filterMap
        tableOfEvent = _
    rw [List.filterMap_append, runItems_no_write]
    rfl
  · show ((runItems (prevSymbolsOf fs) (some j) n oracle items).2.2.1 ++
        [REvent.writeTable (prevOutputOf fs (some j) ++
          (runItems (prevSymbolsOf fs) (some j) n oracle items).2.1)]).filterMap
        tableOfEvent = _
    rw [List.filterMap_append, runItems_no_write]
    rfl

theorem readGlobal_events_read (args : DiagArgs)
    (condFiles : String → Option (List Cond)) :
    ∀ e ∈ (readGlobalConditions args condFiles).1,
      ∃ p, e = DEvent.readConditions p := by
  intro e he
  unfold readGlobalConditions at he
  split at he
  · simp at he
  · split at he
    · simp at he
      exact ⟨_, he⟩
    · simp at he
      exact ⟨_, he⟩

theorem readMaterial_events_read (args : DiagArgs)
    (matFiles : String → Option (List (String × Cond))) :
    ∀ e ∈ (readMaterialConditions args matFiles).1,
      ∃ p, e = DEvent.readConditions p := by
  intro e he
  unfold readMaterialConditions at he
  split at he
  · simp at he
  · split at he
    · simp at he
      exact ⟨_, he⟩
    · simp at he
      exact ⟨_, he⟩

theorem startup_events_read (args : DiagArgs)
    (condFiles : String → Option (List Cond))
    (matFiles : String → Option (List (String × Cond))) :
    ∀ e ∈ (startupConditions args condFiles matFiles).1,
      ∃ p, e = DEvent.readConditions p := by
  intro e he
  unfold startupConditions at he
  split at he
  · simp at he
  · rcases hg : readGlobalConditions args condFiles with ⟨gevs, gres⟩
    rw [hg] at he
    have hgev : ∀ x ∈ gevs, ∃ p, x = DEvent.readConditions p := by
      intro x hx
      have h2 := readGlobal_events_read args condFiles x
      rw [hg] at h2
      exact h2 hx
    cases gres with
    | error err => exact hgev e he
    | ok gconds =>
      dsimp only at he
      cases hd : directConditions args with
      | error err =>
          rw [hd] at he
          exact hgev e he
      | ok dconds =>
        rw [hd] at he
        dsimp only at he
        rcases hm : readMaterialConditions args matFiles with ⟨mevs, mres⟩
        rw [hm] at he
        have hmev : ∀ x ∈ mevs, ∃ p, x = DEvent.readConditions p := by
          intro x hx
          have h2 := readMaterial_events_read args matFiles x
          rw [hm] at h2
          exact h2 hx
        cases mres with
        | error err =>
            dsimp only at he
            rw [List.mem_append] at he
            rcases he with he | he
            · exact hgev e he
            · exact hmev e he
        | ok mrows =>
            dsimp only at he
            rw [List.mem_append] at he
            rcases he with he | he
            · exact hgev e he
            · exact hmev e he

/-- The events of one diagram-row step, whichever way it ended. -/
def eventsOfDRow : DRowRes → List DEvent
  | .skip _ => []
  | .done _ _ _ ev => ev
  | .fatal _ _ _ _ ev => ev

theorem processDiagRow_events_read {α : Type} (prevS : List String)
    (shard : Option (Int × Int)) (gconds : List Cond)
    (mrows : List (String × Cond)) (entriesFs : String → Option (List PEntry))
    (buildFn : List PEntry → GKey → α) (evalFn : α → PEntry → Cond → Int)
    (row : DownloadRow) :
    ∀ e ∈ eventsOfDRow
        (processDiagRow prevS shard gconds mrows entriesFs buildFn evalFn row),
      ∃ p, e = DEvent.readEntries p := by
  intro e he
  unfold processDiagRow at he
  dsimp only at he
  by_cases hk : row.symbols ∈ prevS
  · rw [if_pos hk] at he
    simp [eventsOfDRow] at he
  · rw [if_neg hk] at he
    cases hpath : row.entriesOutpath with
    | none =>
        rw [hpath] at he
        simp [eventsOfDRow] at he
    | some inpath =>
        rw [hpath] at he
        dsimp only at he
        split at he
        · simp [eventsOfDRow] at he
        · cases hfs : entriesFs inpath with
          | none =>
              rw [hfs] at he
              simp [eventsOfDRow] at he
              exact ⟨_, he⟩
          | some entries =>
              rw [hfs] at he
              dsimp only at he
              split at he
              · simp [eventsOfDRow] at he
                exact ⟨_, he⟩
              · simp [eventsOfDRow] at he
                exact ⟨_, he⟩

theorem runDiagRows_events_read {α : Type} (prevS : List String)
    (shard : Option (Int × Int)) (gconds : List Cond)
    (mrows : List (String × Cond)) (entriesFs : String → Option (List PEntry))
    (buildFn : List PEntry → GKey → α) (evalFn : α → PEntry → Cond → Int) :
    ∀ rows e,
      e ∈ (runDiagRows prevS shard gconds mrows entriesFs buildFn evalFn
        rows).events →
      ∃ p, e = DEvent.readEntries p := by
  intro rows
  induction rows with
  | nil => intro e he; simp [runDiagRows] at he
  | cons row rest ih =>
    intro e he
    rw [runDiagRows] at he
    cases hp : processDiagRow prevS shard gconds mrows entriesFs buildFn evalFn
        row with
    | skip st =>
        rw [hp] at he
        exact ih e he
    | done dr da b ev =>
        rw [hp] at he
        dsimp only at he
        rw [List.mem_append] at he
        rcases he with he | he
        · have h2 := processDiagRow_events_read prevS shard gconds mrows
            entriesFs buildFn evalFn row e
          rw [hp] at h2
          exact h2 he
        · exact ih e he
    | fatal err dr da b ev =>
        rw [hp] at he
        have h2 := processDiagRow_events_read prevS shard gconds mrows
          entriesFs buildFn evalFn row e
        rw [hp] at h2
        exact h2 he

/-- C2: on every exit path of a run of either script — normal completion,
handled per-item errors, or an unclassified exception — the `finally` flush
runs exactly once: the retrieve run performs exactly one `writeTable`, whose
content is this run's prior on-disk rows followed by the rows buffered during
the run, and the diagram run (once its startup checks and the read of the
downloads table have succeeded, i.e. once the `try` block is entered)
performs exactly one `writeData` and one `writeDiagrams`, each prior rows
first.  The hypotheses only fix the startup outcome; the oracles are
arbitrary, so runs ending in an unclassified exception — where the buffered
rows of completed items are still written — are covered. -/
theorem flush_on_every_exit_path
    (fs : DownloadFS) (items : List String)
    (oracle : String → Nat → AttemptResult) (j n : Int) {α : Type}
    (args : DiagArgs) (condFiles : String → Option (List Cond))
    (matFiles : String → Option (List (String × Cond)))
    (inrows : List DownloadRow) (diagFs : List (Option Int × List DiagRow))
    (dataFs : List (Option Int × List DataRow))
    (entriesFs : String → Option (List PEntry))
    (buildFn : List PEntry → GKey → α) (evalFn : α → PEntry → Cond → Int)
    (evs : List DEvent) (gm : List Cond × List (String × Cond))
    (hstart : startupConditions args condFiles matFiles = (evs, .ok gm))
    (shard : Option (Int × Int)) (hshard : checkShard args = .ok shard) :
    writtenTables (runRetrieve fs [] items oracle) =
      [prevOutputOf fs none ++ (runRetrieve fs [] items oracle).newRows] ∧
    writtenTables (runRetrieve fs [j, n] items oracle) =
      [prevOutputOf fs (some j) ++
        (runRetrieve fs [j, n] items oracle).newRows] ∧
    writtenDataTables (runDiag args condFiles matFiles (some inrows) diagFs
        dataFs entriesFs buildFn evalFn) =
      [(List.lookup (shard.map (fun p => p.1)) dataFs).getD [] ++
        (runDiag args condFiles matFiles (some inrows) diagFs dataFs entriesFs
          buildFn evalFn).newDataRows] ∧
    writtenDiagTables (runDiag args condFiles matFiles (some inrows) diagFs
        dataFs entriesFs buildFn evalFn) =
      [(List.lookup (shard.map (fun p => p.1)) diagFs).getD [] ++
        (runDiag args condFiles matFiles (some inrows) diagFs dataFs entriesFs
          buildFn evalFn).newDiagRows] := by
  obtain ⟨hret1, hret2⟩ := retrieve_flush_exactly_once fs items oracle j n
  refine ⟨hret1, hret2, ?_⟩
  have hevs : ∀ e ∈ evs, ∃ p, e = DEvent.readConditions p := by
    intro e he
    have h2 := startup_events_read args condFiles matFiles e
    rw [hstart] at h2
    exact h2 he
  have hevsData : evs.filterMap dataTableOfEvent = [] := by
    rw [List.filterMap_eq_nil_iff]
    intro e he
    obtain ⟨p, rfl⟩ := hevs e he
    rfl
  have hevsDiag : evs.filterMap diagTableOfEvent = [] := by
    rw [List.filterMap_eq_nil_iff]
    intro e he
    obtain ⟨p, rfl⟩ := hevs e he
    rfl
  have hloopData : ∀ prevS gconds mrows,
      ((@runDiagRows α prevS shard gconds mrows entriesFs buildFn evalFn
        inrows).events).filterMap dataTableOfEvent = [] := by

    intro prevS gconds mrows
    rw [List.filterMap_eq_nil_iff]
    intro e he
    obtain ⟨p, rfl⟩ := runDiagRows_events_read prevS shard gconds mrows
      entriesFs buildFn evalFn inrows e he
    rfl
  have hloopDiag : ∀ prevS gconds mrows,
      ((@runDiagRows α prevS shard gconds mrows entriesFs buildFn evalFn
        inrows).events).filterMap diagTableOfEvent = [] := by
    intro prevS gconds mrows
    rw [List.filterMap_eq_nil_iff]
    intro e he
    obtain ⟨p, rfl⟩ := runDiagRows_events_read prevS shard gconds mrows
      entriesFs buildFn evalFn inrows e he
    rfl
  unfold runDiag
  rw [hstart, hshard]
  dsimp only
  constructor
  · unfold writtenDataTables
    dsimp only
    rw [List.filterMap_append, List.filterMap_append, List.filterMap_append,
      hevsData, hloopData]
    rfl
  · unfold writtenDiagTables
    dsimp only
    rw [List.filterMap_append, List.filterMap_append, List.filterMap_append,
      hevsDiag, hloopDiag]
    rfl

/-- Witness for C2 at a concrete configuration: direct conditions only, no
sharding, empty filesystem. -/
theorem flush_on_every_exit_path_witness :
    writtenDataTables (runDiag { ph := some [1], voltage := some [2] }
        (fun _ => some []) (fun _ => some []) (some []) [] [] (fun _ => none)
        (fun _ _ => (0 : Int)) (fun d _ _ => d)) =
      [(List.lookup ((none : Option (Int × Int)).map (fun p => p.1))
          ([] : List (Option Int × List DataRow))).getD [] ++
        (runDiag { ph := some [1], voltage := some [2] } (fun _ => some [])
          (fun _ => some []) (some []) [] [] (fun _ => none)
          (fun _ _ => (0 : Int)) (fun d _ _ => d)).newDataRows] :=
  (flush_on_every_exit_path [] ["Fe"] (fun _ _ => .success 1) 0 1
    { ph := some [1], voltage := some [2] } (fun _ => some [])
    (fun _ => some []) [] [] [] (fun _ => none) (fun _ _ => (0 : Int))
    (fun d _ _ => d) [] ([(1, 2)], []) rfl none rfl).2.2.1

/-- A diagram table previously written by job number 0, containing the key
`Ag`, for the C1 counterexample. -/
def c1PriorDiagTbl : List DiagRow :=
  [{ symbols := "Ag", name := "Ag(s)", entryId := "mp-124" }]

/-- A diagram run as job 1 of 2, with the job-0 table of `c1PriorDiagTbl` on
disk and `Ag` pending in the downloads table.  `string2job "Ag" 2 = 1`, so the
key belongs to the current shard. -/
def c1Run : DiagOut :=
  runDiag { jobNumber := some 1, njobs := some 2,
            ph := some [1], voltage := some [2] }
    (fun _ => none) (fun _ => none)
    (some [{ symbols := "Ag",
             entriesOutpath := some "pourbaix_entries/Ag.json.gz" }])
    [(some 0, c1PriorDiagTbl)] [] (fun _ => some []) (fun _ _ => (0 : Int))
    (fun d _ _ => d)

/-- C1, counterexample: in the diagram script the already-done check consults
only the current job number's own output table.  Here the key `Ag` sits in the
symbols column of a previously written output table (the one job 0 wrote), yet
the current run — job 1 of 2, to which `Ag` is assigned — does not find it in
its done-set: it reads the serialized entries again and processes the key
instead of skipping it. -/
theorem diagram_misses_other_shard_checkpoints :
    "Ag" ∈ c1PriorDiagTbl.map (fun r => r.symbols) ∧
    c1Run.statuses = [("Ag", DStatus.processed)] ∧
    c1Run.events.filterMap (fun e => match e with
      | DEvent.readEntries p => some p
      | _ => none) = ["pourbaix_entries/Ag.json.gz"] := by
  refine ⟨by decide, by decide, by decide⟩

/-- C1, amended: in the retrieval script the done-set is the union of the
`symbols` columns of *all* existing downloads tables, whatever job suffix
wrote them, so a key present in any of them is skipped before the shard check,
regardless of the current run's `(job_number, total_jobs)`.  In the diagram
script only the current job number's own output table feeds the done-set: a
key recorded there is skipped, but a key recorded under a different job number
(for example after `total_jobs` changed) is reprocessed. -/
theorem done_check_union_retrieve_own_table_diagrams
    (fs : DownloadFS) (suffix : Option Int) (tbl : List DownloadRow)
    (r : DownloadRow) (hfs : (suffix, tbl) ∈ fs) (hr : r ∈ tbl)
    (job : Option Int) (njobs : Int) (oracle : Nat → AttemptResult)
    {α : Type} (prevS : List String) (drow : DownloadRow)
    (hd : drow.symbols ∈ prevS)
    (shard : Option (Int × Int)) (gconds : List Cond)
    (mrows : List (String × Cond)) (entriesFs : String → Option (List PEntry))
    (buildFn : List PEntry → GKey → α) (evalFn : α → PEntry → Cond → Int)
    (args : DiagArgs) (condFiles : String → Option (List Cond))
    (matFiles : String → Option (List (String × Cond)))
    (evs : List DEvent) (gm : List Cond × List (String × Cond))
    (hstart : startupConditions args condFiles matFiles = (evs, .ok gm))
    (jn : Int × Int) (hshard : checkShard args = .ok (some jn))
    (drow2 : DownloadRow) (rest : List DownloadRow)
    (diagFs : List (Option Int × List DiagRow))
    (dataFs : List (Option Int × List DataRow))
    (hd2 : drow2.symbols ∈
      ((List.lookup (some jn.1) diagFs).getD []).map (fun r => r.symbols)) :
    r.symbols ∈ prevSymbolsOf fs ∧
    processItem (prevSymbolsOf fs) job njobs oracle r.symbols =
      .ok .alreadyDone [] ∧
    processDiagRow prevS shard gconds mrows entriesFs buildFn evalFn drow =
      .skip .alreadyDone ∧
    (∃ tail, (runDiag args condFiles matFiles (some (drow2 :: rest)) diagFs
        dataFs entriesFs buildFn evalFn).statuses =
      (drow2.symbols, DStatus.alreadyDone) :: tail) := by
  have hmem := mem_prevSymbolsOf hfs hr
  refine ⟨hmem, processItem_done hmem, ?_, ?_⟩
  · unfold processDiagRow
    rw [if_pos hd]
  · unfold runDiag
    rw [hstart, hshard]
    dsimp only
    simp only [Option.map_some']
    rw [runDiagRows]
    have hskip : processDiagRow
        (((List.lookup (some jn.1) diagFs).getD []).map (fun r => r.symbols))
        (some jn) gm.1 gm.2 entriesFs buildFn evalFn drow2 =
        .skip .alreadyDone := by
      unfold processDiagRow
      rw [if_pos hd2]
    rw [hskip]
    exact ⟨_, rfl⟩

/-- Arguments of the witness diagram run for C1: job 4 of 9, direct
conditions. -/
def c1WArgs : DiagArgs :=
  { jobNumber := some 4, njobs := some 9, ph := some [1], voltage := some [2] }

/-- The witness diagram run's own prior table (suffix 4), holding `Zn`. -/
def c1WDiagFs : List (Option Int × List DiagRow) :=
  [(some 4, [{ symbols := "Zn", name := "Zn(s)", entryId := "mp-79" }])]

/-- Witness for C1 (amended) at concrete tables: key `Cu` recorded by job 3,
current retrieve run sharded differently; key `Zn` in the diagram run's own
prior table. -/
theorem done_check_union_retrieve_own_table_diagrams_witness :
    ("Cu" : String) ∈ prevSymbolsOf [(some 3, [{ symbols := "Cu" }])] ∧
    processItem (prevSymbolsOf [(some 3, [{ symbols := "Cu" }])]) (some 0) 2
        (fun _ => AttemptResult.success 1) "Cu" = .ok .alreadyDone [] ∧
    processDiagRow ["Zn"] none [] [] (fun _ => none)
        (fun _ _ => (0 : Int)) (fun d _ _ => d) { symbols := "Zn" } =
      .skip .alreadyDone ∧
    (∃ tail, (runDiag c1WArgs (fun _ => none) (fun _ => none)
        (some [{ symbols := "Zn" }]) c1WDiagFs [] (fun _ => none)
        (fun _ _ => (0 : Int)) (fun d _ _ => d)).statuses =
      ("Zn", DStatus.alreadyDone) :: tail) :=
  done_check_union_retrieve_own_table_diagrams
    [(some 3, [{ symbols := "Cu" }])] (some 3) [{ symbols := "Cu" }]
    { symbols := "Cu" } (by decide) (by decide) (some 0) 2
    (fun _ => AttemptResult.success 1) ["Zn"] { symbols := "Zn" } (by decide)
    none [] [] (fun _ => none) (fun _ _ => (0 : Int)) (fun d _ _ => d)
    c1WArgs (fun _ => none) (fun _ => none) [] ([(1, 2)], []) rfl (4, 9) rfl
    { symbols := "Zn" } [] c1WDiagFs [] (by decide)

theorem runItems_offshard {prevS : List String} {j n : Int}
    {oracle : String → Nat → AttemptResult}
    (hoff : ∀ k : String, string2job k n ≠ j) :
    ∀ items,
      (∀ p ∈ (runItems prevS (some j) n oracle items).1,
        p.2 = ItemStatus.alreadyDone ∨ p.2 = ItemStatus.notMyShard) ∧
      (runItems prevS (some j) n oracle items).2.1 = [] ∧
      (runItems prevS (some j) n oracle items).2.2.1 = [] ∧
      (runItems prevS (some j) n oracle items).2.2.2 = none := by
  intro items
  induction items with
  | nil => exact ⟨by simp [runItems], rfl, rfl, rfl⟩
  | cons k rest ih =>
    by_cases hk : k ∈ prevS
    · rw [runItems, processItem_done hk]
      dsimp only
      refine ⟨?_, by simpa using ih.2.1, by simpa using ih.2.2.1, ih.2.2.2⟩
      intro p hp
      rcases List.mem_cons.mp hp with rfl | hp
      · left; rfl
      · exact ih.1 p hp
    · rw [runItems, processItem_notMine hk (hoff k)]
      dsimp only
      refine ⟨?_, by simpa using ih.2.1, by simpa using ih.2.2.1, ih.2.2.2⟩
      intro p hp
      rcases List.mem_cons.mp hp with rfl | hp
      · right; rfl
      · exact ih.1 p hp

/-- C10: the retrieve script never range-checks `job_number`.  Invoked with
any `job_number` outside `[0, total_jobs)`, it proceeds: since
`string2job k n ∈ [0, n)`, no key matches the shard, every item is skipped
(as already done or as another shard's), no row is buffered, the run ends
successfully and silently rewrites the output table with no new rows.  The
diagram script instead rejects the same arguments with the range `ValueError`
after its condition-source startup but before reading the downloads table,
before any per-item processing and before any write. -/
theorem out_of_range_job_silent_vs_rejected
    (fs : DownloadFS) (items : List String)
    (oracle : String → Nat → AttemptResult) (j n : Int)
    (hn : 0 < n) (hrange : j < 0 ∨ n ≤ j) {α : Type}
    (args : DiagArgs) (hj : args.jobNumber = some j) (hn2 : args.njobs = some n)
    (condFiles : String → Option (List Cond))
    (matFiles : String → Option (List (String × Cond)))
    (intbl : Option (List DownloadRow))
    (diagFs : List (Option Int × List DiagRow))
    (dataFs : List (Option Int × List DataRow))
    (entriesFs : String → Option (List PEntry))
    (buildFn : List PEntry → GKey → α) (evalFn : α → PEntry → Cond → Int)
    (evs : List DEvent) (gm : List Cond × List (String × Cond))
    (hstart : startupConditions args condFiles matFiles = (evs, .ok gm)) :
    (∀ p ∈ (runRetrieve fs [j, n] items oracle).statuses,
      p.2 = ItemStatus.alreadyDone ∨ p.2 = ItemStatus.notMyShard) ∧
    (runRetrieve fs [j, n] items oracle).newRows = [] ∧
    (runRetrieve fs [j, n] items oracle).result = .ok () ∧
    writtenTables (runRetrieve fs [j, n] items oracle) =
      [prevOutputOf fs (some j)] ∧
    (runDiag args condFiles matFiles intbl diagFs dataFs entriesFs buildFn
      evalFn).result = .error .usageRange ∧
    (runDiag args condFiles matFiles intbl diagFs dataFs entriesFs buildFn
      evalFn).statuses = [] ∧
    writtenDataTables (runDiag args condFiles matFiles intbl diagFs dataFs
      entriesFs buildFn evalFn) = [] ∧
    writtenDiagTables (runDiag args condFiles matFiles intbl diagFs dataFs
      entriesFs buildFn evalFn) = [] := by
  have hoff : ∀ k : String, string2job k n ≠ j := by
    intro k heq
    have h1 := string2job_nonneg k hn
    have h2 := string2job_lt k hn
    omega
  have hr := @runItems_offshard (prevSymbolsOf fs) j n oracle hoff items
  have hcheck : checkShard args = .error .usageRange := by
    unfold checkShard
    rw [hj, hn2]
    dsimp only
    rw [if_pos hrange]
  have hdiag : runDiag args condFiles matFiles intbl diagFs dataFs entriesFs
      buildFn evalFn = ⟨.error .usageRange, [], [], [], evs⟩ := by
    unfold runDiag
    rw [hstart, hcheck]
  have hevs : ∀ e ∈ evs, ∃ p, e = DEvent.readConditions p := by
    intro e he
    have h2 := startup_events_read args condFiles matFiles e
    rw [hstart] at h2
    exact h2 he
  refine ⟨hr.1, hr.2.1, ?_, ?_, ?_, ?_, ?_, ?_⟩
  · show (match (runItems (prevSymbolsOf fs) (some j) n oracle items).2.2.2 with
      | none => Except.ok ()
      | some m => Except.error (RunErr.fatal m)) = Except.ok ()
    rw [hr.2.2.2]
  · have hw := (retrieve_flush_exactly_once fs items oracle j n).2
    rw [hw]
    show [prevOutputOf fs (some j) ++
      (runItems (prevSymbolsOf fs) (some j) n oracle items).2.1] = _
    rw [hr.2.1, List.append_nil]
  · rw [hdiag]
  · rw [hdiag]
  · rw [hdiag]
    unfold writtenDataTables
    rw [List.filterMap_eq_nil_iff]
    intro e he
    obtain ⟨p, rfl⟩ := hevs e he
    rfl
  · rw [hdiag]
    unfold writtenDiagTables
    rw [List.filterMap_eq_nil_iff]
    intro e he
    obtain ⟨p, rfl⟩ := hevs e he
    rfl

/-- Arguments of the witness diagram run for C10: job 5 of 2, direct
conditions. -/
def c10WArgs : DiagArgs :=
  { jobNumber := some 5, njobs := some 2, ph := some [1], voltage := some [2] }

/-- Witness for C10: job 5 of 2 at a concrete filesystem and item. -/
theorem out_of_range_job_silent_vs_rejected_witness :
    (runRetrieve [] [5, 2] ["Fe"] (fun _ _ => .success 3)).newRows = [] ∧
    (runRetrieve [] [5, 2] ["Fe"] (fun _ _ => .success 3)).result = .ok () ∧
    (runDiag c10WArgs (fun _ => none) (fun _ => none) (some [])
      [] [] (fun _ => none) (fun _ _ => (0 : Int)) (fun d _ _ => d)).result =
      .error .usageRange :=
  have h := out_of_range_job_silent_vs_rejected [] ["Fe"]
    (fun _ _ => .success 3) 5 2 (by decide) (by decide) c10WArgs rfl rfl
    (fun _ => none) (fun _ => none) (some []) [] [] (fun _ => none)
    (fun _ _ => (0 : Int)) (fun d _ _ => d) [] ([(1, 2)], []) rfl
  ⟨h.2.1, h.2.2.1, h.2.2.2.2.1⟩

/-- Diagram-script arguments with a global conditions file and only
`--job-number` supplied, for the C8 counterexample. -/
def c8aArgs : DiagArgs :=
  { jobNumber := some 0, globalConditions := some "global.csv" }

/-- The C8 counterexample run: the conditions file exists and is read before
the shard-argument check fires. -/
def c8aRun : DiagOut :=
  runDiag c8aArgs (fun _ => some [(1, 2)]) (fun _ => none) (some []) [] []
    (fun _ => none) (fun _ _ => (0 : Int)) (fun d _ _ => d)

/-- A diagram run with both shard arguments supplied but out of range. -/
def c8bRun : DiagOut :=
  runDiag { jobNumber := some 5, njobs := some 2,
            ph := some [1], voltage := some [2] }
    (fun _ => none) (fun _ => none) (some []) [] [] (fun _ => none)
    (fun _ _ => (0 : Int)) (fun d _ _ => d)

/-- C8, counterexample: two of the claim's clauses fail on the diagram script.
First, with a conditions file and exactly one shard argument supplied, the
usage error is raised only *after* the conditions file has been read: the
abort is not before any I/O.  Second, with both shard arguments supplied but
`job_number` outside `[0, njobs)`, the run does not proceed: it aborts with
the range error. -/
theorem usage_abort_not_before_io :
    c8aRun.result = .error .usageShard ∧
    c8aRun.events = [DEvent.readConditions "global.csv"] ∧
    c8bRun.result = .error .usageRange := by
  exact ⟨rfl, rfl, rfl⟩

/-- C8, amended: supplying exactly one of `(job_number, total_jobs)` aborts
both scripts with a usage error and nonzero exit before any per-item work and
before any output is written; the retrieval script aborts before any I/O at
all, while the diagram script first reads any supplied conditions files (its
events are exactly those reads) and only then fails the shard-presence check.
With both or neither supplied, the shard-presence check passes — the retrieve
run never raises a usage error, and the diagram script's `checkShard` cannot
return the presence error (though it may still reject an out-of-range
`job_number`, and startup may reject missing condition sources). -/
theorem shard_args_both_or_neither
    (fs : DownloadFS) (items : List String)
    (oracle : String → Nat → AttemptResult) (x j n : Int) {α : Type}
    (args : DiagArgs) (condFiles : String → Option (List Cond))
    (matFiles : String → Option (List (String × Cond)))
    (intbl : Option (List DownloadRow))
    (diagFs : List (Option Int × List DiagRow))
    (dataFs : List (Option Int × List DataRow))
    (entriesFs : String → Option (List PEntry))
    (buildFn : List PEntry → GKey → α) (evalFn : α → PEntry → Cond → Int)
    (evs : List DEvent) (gm : List Cond × List (String × Cond))
    (hstart : startupConditions args condFiles matFiles = (evs, .ok gm))
    (hone : args.jobNumber.isSome ≠ args.njobs.isSome)
    (args2 : DiagArgs) (hboth : args2.jobNumber.isSome = args2.njobs.isSome) :
    (runRetrieve fs [x] items oracle).result =
      .error (.usage "job number without total number of jobs") ∧
    (runRetrieve fs [x] items oracle).events = [] ∧
    (runRetrieve fs [x] items oracle).statuses = [] ∧
    (runRetrieve fs [x] items oracle).newRows = [] ∧
    (∀ m, (runRetrieve fs [] items oracle).result ≠ .error (.usage m)) ∧
    (∀ m, (runRetrieve fs [j, n] items oracle).result ≠ .error (.usage m)) ∧
    (runDiag args condFiles matFiles intbl diagFs dataFs entriesFs buildFn
      evalFn).result = .error .usageShard ∧
    (runDiag args condFiles matFiles intbl diagFs dataFs entriesFs buildFn
      evalFn).statuses = [] ∧
    writtenDataTables (runDiag args condFiles matFiles intbl diagFs dataFs
      entriesFs buildFn evalFn) = [] ∧
    writtenDiagTables (runDiag args condFiles matFiles intbl diagFs dataFs
      entriesFs buildFn evalFn) = [] ∧
    (runDiag args condFiles matFiles intbl diagFs dataFs entriesFs buildFn
      evalFn).events = evs ∧
    checkShard args2 ≠ .error .usageShard := by
  have hcheck : checkShard args = .error .usageShard := by
    unfold checkShard
    cases hj2 : args.jobNumber with
    | none =>
        cases hn2 : args.njobs with
        | none => rw [hj2, hn2] at hone; simp at hone
        | some nn => rfl
    | some jj =>
        cases hn2 : args.njobs with
        | none => rfl
        | some nn => rw [hj2, hn2] at hone; simp at hone
  have hdiag : runDiag args condFiles matFiles intbl diagFs dataFs entriesFs
      buildFn evalFn = ⟨.error .usageShard, [], [], [], evs⟩ := by
    unfold runDiag
    rw [hstart, hcheck]
  have hevs : ∀ e ∈ evs, ∃ p, e = DEvent.readConditions p := by
    intro e he
    have h2 := startup_events_read args condFiles matFiles e
    rw [hstart] at h2
    exact h2 he
  refine ⟨rfl, rfl, rfl, rfl, ?_, ?_, ?_, ?_, ?_, ?_, ?_, ?_⟩
  · intro m
    show (match (runItems (prevSymbolsOf fs) none 0 oracle items).2.2.2 with
      | none => Except.ok ()
      | some m2 => Except.error (RunErr.fatal m2)) ≠ _
    cases (runItems (prevSymbolsOf fs) none 0 oracle items).2.2.2 <;> simp
  · intro m
    show (match (runItems (prevSymbolsOf fs) (some j) n oracle
        items).2.2.2 with
      | none => Except.ok ()
      | some m2 => Except.error (RunErr.fatal m2)) ≠ _
    cases (runItems (prevSymbolsOf fs) (some j) n oracle items).2.2.2 <;> simp
  · rw [hdiag]
  · rw [hdiag]
  · rw [hdiag]
    unfold writtenDataTables
    rw [List.filterMap_eq_nil_iff]
    intro e he
    obtain ⟨p, rfl⟩ := hevs e he
    rfl
  · rw [hdiag]
    unfold writtenDiagTables
    rw [List.filterMap_eq_nil_iff]
    intro e he
    obtain ⟨p, rfl⟩ := hevs e he
    rfl
  · rw [hdiag]
  · unfold checkShard
    cases hj2 : args2.jobNumber with
    | none =>
        cases hn2 : args2.njobs with
        | none => simp
        | some nn => rw [hj2, hn2] at hboth; simp at hboth
    | some jj =>
        cases hn2 : args2.njobs with
        | none => rw [hj2, hn2] at hboth; simp at hboth
        | some nn =>
            dsimp only
            split <;> simp

/-- Witness for C8 (amended): only `--job-number` given to the diagram
script, a conditions file present; both given to the second configuration. -/
theorem shard_args_both_or_neither_witness :
    (runRetrieve [] [7] ["Fe"] (fun _ _ => .success 1)).result =
      .error (.usage "job number without total number of jobs") ∧
    (runDiag c8aArgs (fun _ => some [(1, 2)]) (fun _ => none) (some []) [] []
      (fun _ => none) (fun _ _ => (0 : Int)) (fun d _ _ => d)).result =
      .error .usageShard ∧
    checkShard { jobNumber := some 0, njobs := some 4 } ≠
      .error .usageShard :=
  have h := shard_args_both_or_neither [] ["Fe"] (fun _ _ => .success 1)
    7 0 1 c8aArgs (fun _ => some [(1, 2)]) (fun _ => none) (some []) [] []
    (fun _ => none) (fun _ _ => (0 : Int)) (fun d _ _ => d)
    [DEvent.readConditions "global.csv"] ([(1, 2)], []) rfl (by decide)
    { jobNumber := some 0, njobs := some 4 } (by decide)
  ⟨h.1, h.2.2.2.2.2.2.1, h.2.2.2.2.2.2.2.2.2.2.2⟩

/-- C9: a download that succeeds with zero entries still records a row — only
the `symbols` and `n_entries` columns are set, so `entries_outpath` (and the
other columns) are missing — and that row makes the key done everywhere later:
the row's key joins the union of symbols of any filesystem containing the
table, a later retrieve run's already-done check skips it, and the diagram
script, a row whose entries path is missing is skipped before any processing:
no entries file is read, nothing is built, no output rows are appended. -/
theorem zero_entries_row_marks_done
    (prevS : List String) (job : Option Int) (njobs : Int)
    (oracle : Nat → AttemptResult) (k : String) (es : List REvent)
    (hk : k ∉ prevS) (hmine : ∀ j, job = some j → string2job k njobs = j)
    (hdl : retryLoop oracle 1 outerRetries = (.downloaded 0, es))
    (prevS2 : List String) (oracle2 : Nat → AttemptResult)
    (job2 : Option Int) (njobs2 : Int) (hk2 : k ∈ prevS2)
    (fs2 : DownloadFS) (suffix : Option Int) (tbl : List DownloadRow)
    (hfs2 : (suffix, tbl) ∈ fs2)
    (htbl : ({ symbols := k, nEntries := some 0 } : DownloadRow) ∈ tbl)
    {α : Type} (dPrevS : List String) (shard : Option (Int × Int))
    (gconds : List Cond) (mrows : List (String × Cond))
    (entriesFs : String → Option (List PEntry))
    (buildFn : List PEntry → GKey → α) (evalFn : α → PEntry → Cond → Int)
    (drow : DownloadRow) (hpath : drow.entriesOutpath = none)
    (hnd : drow.symbols ∉ dPrevS) :
    processItem prevS job njobs oracle k =
      .ok (.recorded { symbols := k, nEntries := some 0 }) es ∧
    k ∈ prevSymbolsOf fs2 ∧
    processItem prevS2 job2 njobs2 oracle2 k = .ok .alreadyDone [] ∧
    processDiagRow dPrevS shard gconds mrows entriesFs buildFn evalFn drow =
      .skip .missingInput := by
  refine ⟨?_, mem_prevSymbolsOf hfs2 htbl, processItem_done hk2, ?_⟩
  · rw [processItem_not_done_mine hk hmine]
    unfold attemptPhase
    rw [hdl]
    rfl
  · unfold processDiagRow
    dsimp only
    rw [if_neg hnd, hpath]

/-- Witness for C9 at the key `Fe` with a zero-entry success on the first
attempt. -/
theorem zero_entries_row_marks_done_witness :
    processItem [] none 1 (fun _ => AttemptResult.success 0) "Fe" =
      .ok (.recorded { symbols := "Fe", nEntries := some 0 }) [] ∧
    ("Fe" : String) ∈
      prevSymbolsOf [(none, [{ symbols := "Fe", nEntries := some 0 }])] ∧
    processItem ["Fe"] (some 0) 2 (fun _ => AttemptResult.success 0) "Fe" =
      .ok .alreadyDone [] ∧
    processDiagRow [] none [] [] (fun _ => none) (fun _ _ => (0 : Int))
        (fun d _ _ => d) { symbols := "Fe", nEntries := some 0 } =
      .skip .missingInput :=
  zero_entries_row_marks_done [] none 1 (fun _ => AttemptResult.success 0)
    "Fe" [] (by simp) (fun j hj => by cases hj) rfl
    ["Fe"] (fun _ => AttemptResult.success 0) (some 0) 2 (by decide)
    [(none, [{ symbols := "Fe", nEntries := some 0 }])] none
    [{ symbols := "Fe", nEntries := some 0 }] (by decide) (by decide)
    [] none [] [] (fun _ => none) (fun _ _ => (0 : Int)) (fun d _ _ => d)
    { symbols := "Fe", nEntries := some 0 } rfl (by decide)

theorem attemptPhase_cases (oracle : Nat → AttemptResult) (k : String) :
    (∃ row es, attemptPhase oracle k = .ok (.recorded row) es ∧
      row.symbols = k) ∨
    (∃ es, attemptPhase oracle k = .ok .transientSkip es) ∨
    (∃ m es, attemptPhase oracle k = .fatal m es) := by
  unfold attemptPhase
  rcases hr : retryLoop oracle 1 outerRetries with ⟨res, es⟩
  cases res with
  | downloaded n =>
      by_cases h0 : n = 0
      · subst h0
        exact Or.inl ⟨zeroRow k, es, by simp, rfl⟩
      · exact Or.inl ⟨successRow k n,
          es ++ [.saveEntries (entriesPath k)], by simp [h0], rfl⟩
  | recordedError m =>
      exact Or.inl ⟨errorRow k m, es, by simp, rfl⟩
  | exhausted => exact Or.inr (Or.inl ⟨es, by simp⟩)
  | fatal m => exact Or.inr (Or.inr ⟨m, es, by simp⟩)

theorem processItem_alreadyDone_mem {prevS : List String} {job : Option Int}
    {njobs : Int} {oracle : Nat → AttemptResult} {k : String}
    {es : List REvent}
    (h : processItem prevS job njobs oracle k = .ok .alreadyDone es) :
    k ∈ prevS := by
  by_cases hk : k ∈ prevS
  · exact hk
  · exfalso
    unfold processItem at h
    rw [if_neg hk] at h
    have hclash : ¬ (attemptPhase oracle k = .ok .alreadyDone es) := by
      rcases attemptPhase_cases oracle k with ⟨row, es2, ha, _⟩ | ⟨es2, ha⟩ |
          ⟨m, es2, ha⟩ <;>
        (rw [ha]; intro hcon; simp at hcon)
    cases hjob : job with
    | none =>
        rw [hjob] at h
        exact hclash h
    | some j =>
        rw [hjob] at h
        dsimp only at h
        by_cases hoff : string2job k njobs ≠ j
        · rw [if_pos hoff] at h
          simp at h
        · rw [if_neg hoff] at h
          exact hclash h

theorem processItem_notMyShard_shard {prevS : List String} {job : Option Int}
    {njobs : Int} {oracle : Nat → AttemptResult} {k : String}
    {es : List REvent}
    (h : processItem prevS job njobs oracle k = .ok .notMyShard es) :
    ∃ j, job = some j ∧ string2job k njobs ≠ j := by
  by_cases hk : k ∈ prevS
  · rw [processItem_done hk] at h
    simp at h
  · unfold processItem at h
    rw [if_neg hk] at h
    have hclash : ¬ (attemptPhase oracle k = .ok .notMyShard es) := by
      rcases attemptPhase_cases oracle k with ⟨row, es2, ha, _⟩ | ⟨es2, ha⟩ |
          ⟨m, es2, ha⟩ <;>
        (rw [ha]; intro hcon; simp at hcon)
    cases hjob : job with
    | none =>
        rw [hjob] at h
        exact absurd h hclash
    | some j =>
        rw [hjob] at h
        dsimp only at h
        by_cases hoff : string2job k njobs ≠ j
        · exact ⟨j, rfl, hoff⟩
        · rw [if_neg hoff] at h
          exact absurd h hclash

theorem processItem_recorded_symbols {prevS : List String} {job : Option Int}
    {njobs : Int} {oracle : Nat → AttemptResult} {k : String}
    {row : DownloadRow} {es : List REvent}
    (h : processItem prevS job njobs oracle k = .ok (.recorded row) es) :
    row.symbols = k := by
  have hattempt : ∀ es2, attemptPhase oracle k = .ok (.recorded row) es2 →
      row.symbols = k := by
    intro es2 h2
    rcases attemptPhase_cases oracle k with ⟨row3, es3, ha, hsym⟩ |
        ⟨es3, ha⟩ | ⟨m, es3, ha⟩
    · rw [ha] at h2
      simp only [ItemStep.ok.injEq, ItemStatus.recorded.injEq] at h2
      rw [← h2.1]
      exact hsym
    · rw [ha] at h2
      simp at h2
    · rw [ha] at h2
      simp at h2
  by_cases hk : k ∈ prevS
  · rw [processItem_done hk] at h
    simp at h
  · unfold processItem at h
    rw [if_neg hk] at h
    cases hjob : job with
    | none =>
        rw [hjob] at h
        exact hattempt es h
    | some j =>
        rw [hjob] at h
        dsimp only at h
        by_cases hoff : string2job k njobs ≠ j
        · rw [if_pos hoff] at h
          simp at h
        · rw [if_neg hoff] at h
          exact hattempt es h

theorem runItems_rerun_skips
    (prevS1 prevS2 : List String) (job : Option Int) (njobs : Int)
    (oracle1 oracle2 : String → Nat → AttemptResult)
    (hsub : ∀ s, s ∈ prevS1 → s ∈ prevS2) :
    ∀ items,
      (runItems prevS1 job njobs oracle1 items).2.2.2 = none →
      (∀ p ∈ (runItems prevS1 job njobs oracle1 items).1,
        p.2 ≠ ItemStatus.transientSkip) →
      (∀ r ∈ (runItems prevS1 job njobs oracle1 items).2.1,
        r.symbols ∈ prevS2) →
      (∀ p ∈ (runItems prevS2 job njobs oracle2 items).1,
        p.2 = ItemStatus.alreadyDone ∨ p.2 = ItemStatus.notMyShard) ∧
      (runItems prevS2 job njobs oracle2 items).2.1 = [] ∧
      (runItems prevS2 job njobs oracle2 items).2.2.2 = none := by
  intro items
  induction items with
  | nil =>
      intro _ _ _
      exact ⟨by simp [runItems], rfl, rfl⟩
  | cons k rest ih =>
    intro hfat hnt hrows
    rw [runItems] at hfat hnt hrows
    cases hp1 : processItem prevS1 job njobs (oracle1 k) k with
    | fatal m es =>
        rw [hp1] at hfat
        simp at hfat
    | ok st es =>
        rw [hp1] at hfat hnt hrows
        dsimp only at hfat hnt hrows
        have hfat1 : (runItems prevS1 job njobs oracle1 rest).2.2.2 = none :=
          hfat
        have hnt1 : ∀ p ∈ (runItems prevS1 job njobs oracle1 rest).1,
            p.2 ≠ ItemStatus.transientSkip := by
          intro p hp
          exact hnt p (List.mem_cons_of_mem _ hp)
        have hrows1 : ∀ r ∈ (runItems prevS1 job njobs oracle1 rest).2.1,
            r.symbols ∈ prevS2 := by
          intro r hr
          exact hrows r (by
            rw [List.mem_append]
            exact Or.inr hr)
        obtain ⟨ihs, ihrows, ihfat⟩ := ih hfat1 hnt1 hrows1
        have hk2 : processItem prevS2 job njobs (oracle2 k) k =
              .ok .alreadyDone [] ∨
            processItem prevS2 job njobs (oracle2 k) k =
              .ok .notMyShard [] := by
          cases st with
          | alreadyDone =>
              have hk1 := processItem_alreadyDone_mem hp1
              exact Or.inl (processItem_done (hsub k hk1))
          | notMyShard =>
              obtain ⟨j, hjob, hoff⟩ := processItem_notMyShard_shard hp1
              by_cases hk : k ∈ prevS2
              · exact Or.inl (processItem_done hk)
              · subst hjob
                exact Or.inr (processItem_notMine hk hoff)
          | recorded row =>
              have hsym := processItem_recorded_symbols hp1
              have hkin : k ∈ prevS2 := by
                rw [← hsym]
                exact hrows row (by
                  rw [List.mem_append]
                  exact Or.inl (by simp))
              exact Or.inl (processItem_done hkin)
          | transientSkip =>
              exact absurd rfl (hnt (k, .transientSkip) (by simp))
        rcases hk2 with hk2 | hk2 <;>
        · rw [runItems, hk2]
          dsimp only
          refine ⟨?_, by simpa using ihrows, ihfat⟩
          intro p hp
          rcases List.mem_cons.mp hp with rfl | hp
          · first
              | exact Or.inl rfl
              | exact Or.inr rfl
          · exact ihs p hp

/-- Transient-failure oracle and the two runs of the C4 counterexample:
job 1 of 2 over the single key `Ag` (which hashes to shard 1), where the
remote call always fails with a connection reset. -/
def c4Oracle : String → Nat → AttemptResult :=
  fun _ _ => .transientErr "connection reset"

/-- First run of the C4 counterexample, on an empty filesystem. -/
def c4Run1 : RetrieveOut := runRetrieve [] [1, 2] ["Ag"] c4Oracle

/-- Second run of the C4 counterexample, with the (empty) table flushed by
the first run on disk under job suffix 1. -/
def c4Run2 : RetrieveOut := runRetrieve [(some 1, [])] [1, 2] ["Ag"] c4Oracle

/-- C4, counterexample: the first run completes and flushes successfully, but
its only key failed transiently, so — by design — no row was recorded for it.
The second run of the same job-shard, with no new source data, finds the key
absent from the done-set and processes it again (it enters the retry loop and
ends as a transient skip once more): the rerun does not process zero
additional items, and the attempted key is not found by the already-done
check. -/
theorem rerun_reattempts_transiently_failed_keys :
    c4Run1.result = .ok () ∧
    writtenTables c4Run1 = [[]] ∧
    c4Run1.statuses = [("Ag", ItemStatus.transientSkip)] ∧
    c4Run2.statuses = [("Ag", ItemStatus.transientSkip)] := by
  exact ⟨rfl, rfl, rfl, rfl⟩

/-- C4, amended: re-running the same job-shard after a successful flush, with
no new source data, processes zero additional items and appends zero new rows
*provided every item of the first run reached a recorded outcome or a skip* —
i.e. the first run had no unclassified abort and no transiently-failed keys.
Keys that only failed transiently are deliberately left unrecorded and are
re-attempted by the rerun. -/
theorem rerun_after_flush_idempotent
    (fs1 fs2 : DownloadFS) (j n : Int) (items : List String)
    (oracle1 oracle2 : String → Nat → AttemptResult)
    (hok : (runRetrieve fs1 [j, n] items oracle1).result = .ok ())
    (hnotrans : ∀ p ∈ (runRetrieve fs1 [j, n] items oracle1).statuses,
      p.2 ≠ ItemStatus.transientSkip)
    (hsub : ∀ s, s ∈ prevSymbolsOf fs1 → s ∈ prevSymbolsOf fs2)
    (hwritten : ∀ r, r ∈ prevOutputOf fs1 (some j) ++
        (runRetrieve fs1 [j, n] items oracle1).newRows →
      r.symbols ∈ prevSymbolsOf fs2) :
    (∀ p ∈ (runRetrieve fs2 [j, n] items oracle2).statuses,
      p.2 = ItemStatus.alreadyDone ∨ p.2 = ItemStatus.notMyShard) ∧
    (runRetrieve fs2 [j, n] items oracle2).newRows = [] ∧
    (runRetrieve fs2 [j, n] items oracle2).result = .ok () ∧
    writtenTables (runRetrieve fs2 [j, n] items oracle2) =
      [prevOutputOf fs2 (some j)] := by
  have hfat : (runItems (prevSymbolsOf fs1) (some j) n oracle1
      items).2.2.2 = none := by
    by_contra hne
    rcases hf : (runItems (prevSymbolsOf fs1) (some j) n oracle1
        items).2.2.2 with _ | m
    · exact hne hf
    · have : (runRetrieve fs1 [j, n] items oracle1).result =
          .error (.fatal m) := by
        show (match (runItems (prevSymbolsOf fs1) (some j) n oracle1
            items).2.2.2 with
          | none => Except.ok ()
          | some m2 => Except.error (RunErr.fatal m2)) = _
        rw [hf]
      rw [hok] at this
      simp at this
  have hrows : ∀ r ∈ (runItems (prevSymbolsOf fs1) (some j) n oracle1
      items).2.1, r.symbols ∈ prevSymbolsOf fs2 := by
    intro r hr
    exact hwritten r (by
      rw [List.mem_append]
      exact Or.inr hr)
  obtain ⟨hs, hrows2, hfat2⟩ := runItems_rerun_skips (prevSymbolsOf fs1)
    (prevSymbolsOf fs2) (some j) n oracle1 oracle2 hsub items hfat hnotrans
    hrows
  refine ⟨hs, hrows2, ?_, ?_⟩
  · show (match (runItems (prevSymbolsOf fs2) (some j) n oracle2
        items).2.2.2 with
      | none => Except.ok ()
      | some m2 => Except.error (RunErr.fatal m2)) = _
    rw [hfat2]
  · have hw := (retrieve_flush_exactly_once fs2 items oracle2 j n).2
    rw [hw]
    show [prevOutputOf fs2 (some j) ++
      (runItems (prevSymbolsOf fs2) (some j) n oracle2 items).2.1] = _
    rw [hrows2, List.append_nil]

/-- Witness for C4 (amended): first run records `Fe` (shard 0 of 2) with one
entry; the second run, with the flushed table on disk, skips everything. -/
theorem rerun_after_flush_idempotent_witness :
    (∀ p ∈ (runRetrieve [(some 0,
        [{ symbols := "Fe", nEntries := some 1, downloadTime := some 0,
           entriesOutpath := some (entriesPath "Fe") }])] [0, 2] ["Fe"]
        (fun _ _ => .success 1)).statuses,
      p.2 = ItemStatus.alreadyDone ∨ p.2 = ItemStatus.notMyShard) ∧
    (runRetrieve [(some 0,
        [{ symbols := "Fe", nEntries := some 1, downloadTime := some 0,
           entriesOutpath := some (entriesPath "Fe") }])] [0, 2] ["Fe"]
        (fun _ _ => .success 1)).newRows = [] ∧
    (runRetrieve [(some 0,
        [{ symbols := "Fe", nEntries := some 1, downloadTime := some 0,
           entriesOutpath := some (entriesPath "Fe") }])] [0, 2] ["Fe"]
        (fun _ _ => .success 1)).result = .ok () ∧
    writtenTables (runRetrieve [(some 0,
        [{ symbols := "Fe", nEntries := some 1, downloadTime := some 0,
           entriesOutpath := some (entriesPath "Fe") }])] [0, 2] ["Fe"]
        (fun _ _ => .success 1)) =
      [prevOutputOf [(some 0,
        [{ symbols := "Fe", nEntries := some 1, downloadTime := some 0,
           entriesOutpath := some (entriesPath "Fe") }])] (some 0)] :=
  rerun_after_flush_idempotent [] [(some 0,
      [{ symbols := "Fe", nEntries := some 1, downloadTime := some 0,
         entriesOutpath := some (entriesPath "Fe") }])] 0 2 ["Fe"]
    (fun _ _ => .success 1) (fun _ _ => .success 1)
    rfl (by decide) (by decide) (by decide)

/-- Loop invariant of the per-item cache: the cache holds exactly the keys
already built, the built keys are pairwise distinct, one timing row was
emitted per build, and every cached object is the one the build function
produced for its key. -/
def CacheInv {α : Type} (entries : List PEntry)
    (buildFn : List PEntry → GKey → α) (st : BatchState α) : Prop :=
  (∀ gk : GKey, (List.lookup gk st.cache).isSome ↔ gk ∈ st.builds) ∧
  st.builds.Nodup ∧
  st.diagRows.length = st.builds.length ∧
  ∀ kv ∈ st.cache, kv.2 = buildFn entries kv.1

theorem entryStep_spec {α : Type} (cs : List String) (gconds : List Cond)
    (mrows : List (String × Cond)) (entries : List PEntry)
    (buildFn : List PEntry → GKey → α) (evalFn : α → PEntry → Cond → Int)
    (st : BatchState α) (e : PEntry)
    (hval : (matchId e.entryId).isSome)
    (hinv : CacheInv entries buildFn st) :
    ∃ st2, entryStep cs gconds mrows entries buildFn evalFn st e = .ok st2 ∧
      CacheInv entries buildFn st2 ∧
      ∀ gk, gk ∈ st2.builds ↔
        gk ∈ st.builds ∨
          (wantsBuild gconds mrows e = true ∧ gk = gkeyOf cs e) := by
  obtain ⟨mid, hmid⟩ := Option.isSome_iff_exists.mp hval
  have hwants : wantsBuild gconds mrows e =
      !(condsFor gconds mrows mid).isEmpty := by
    unfold wantsBuild
    rw [hmid]
  unfold entryStep
  rw [hmid]
  dsimp only
  by_cases hempty : (condsFor gconds mrows mid).isEmpty
  · rw [if_pos hempty]
    refine ⟨st, rfl, hinv, ?_⟩
    intro gk
    constructor
    · exact Or.inl
    · intro h
      rcases h with h | ⟨hw, _⟩
      · exact h
      · rw [hwants, hempty] at hw
        simp at hw
  · rw [if_neg hempty]
    have hwants2 : wantsBuild gconds mrows e = true := by
      rw [hwants]
      simp only [Bool.not_eq_true']
      exact Bool.eq_false_iff.mpr hempty
    cases hlook : List.lookup (gkeyOf cs e) st.cache with
    | some d =>
        refine ⟨_, rfl, ?_, ?_⟩
        · exact ⟨hinv.1, hinv.2.1, hinv.2.2.1, hinv.2.2.2⟩
        · intro gk
          have hmem : gkeyOf cs e ∈ st.builds := by
            rw [← hinv.1]
            rw [hlook]
            rfl
          constructor
          · exact Or.inl
          · intro h
            rcases h with h | ⟨_, rfl⟩
            · exact h
            · exact hmem
    | none =>
        have hnot : gkeyOf cs e ∉ st.builds := by
          rw [← hinv.1, hlook]
          simp
        refine ⟨_, rfl, ?_, ?_⟩
        · refine ⟨?_, ?_, ?_, ?_⟩
          · intro gk
            by_cases heq : gk = gkeyOf cs e
            · rw [heq]
              constructor
              · intro _
                simp
              · intro _
                simp [List.lookup]
            · have hne : (gk == gkeyOf cs e) = false := by
                simpa using heq
              have hl : List.lookup gk ((gkeyOf cs e,
                  buildFn entries (gkeyOf cs e)) :: st.cache) =
                  List.lookup gk st.cache := by
                simp [List.lookup, hne]
              rw [hl, hinv.1]
              simp [heq]
          · simpa [List.nodup_append] using ⟨hinv.2.1, by simpa using hnot⟩
          · simp [hinv.2.2.1]
          · intro kv hkv
            rcases List.mem_cons.mp hkv with rfl | hkv
            · rfl
            · exact hinv.2.2.2 kv hkv
        · intro gk
          simp only [List.mem_append, List.mem_singleton]
          constructor
          · intro h
            rcases h with h | h
            · exact Or.inl h
            · exact Or.inr ⟨hwants2, h⟩
          · intro h
            rcases h with h | ⟨_, rfl⟩
            · exact Or.inl h
            · exact Or.inr rfl

theorem entriesLoop_spec {α : Type} (cs : List String) (gconds : List Cond)
    (mrows : List (String × Cond)) (entries : List PEntry)
    (buildFn : List PEntry → GKey → α) (evalFn : α → PEntry → Cond → Int) :
    ∀ (solids : List PEntry) (st : BatchState α),
      (∀ e ∈ solids, (matchId e.entryId).isSome) →
      CacheInv entries buildFn st →
      (entriesLoop cs gconds mrows entries buildFn evalFn st solids).2 =
        none ∧
      CacheInv entries buildFn
        (entriesLoop cs gconds mrows entries buildFn evalFn st solids).1 ∧
      ∀ gk, gk ∈ (entriesLoop cs gconds mrows entries buildFn evalFn st
          solids).1.builds ↔
        gk ∈ st.builds ∨
          gk ∈ (solids.filter (wantsBuild gconds mrows)).map (gkeyOf cs) := by
  intro solids
  induction solids with
  | nil =>
      intro st _ hinv
      refine ⟨rfl, hinv, ?_⟩
      intro gk
      simp [entriesLoop]
  | cons e rest ih =>
    intro st hval hinv
    obtain ⟨st2, hstep, hinv2, hbuilds⟩ := entryStep_spec cs gconds mrows
      entries buildFn evalFn st e (hval e (by simp)) hinv
    rw [entriesLoop, hstep]
    obtain ⟨ihnone, ihinv, ihbuilds⟩ := ih st2
      (fun e2 he2 => hval e2 (List.mem_cons_of_mem _ he2)) hinv2
    refine ⟨ihnone, ihinv, ?_⟩
    intro gk
    rw [ihbuilds gk, hbuilds gk]
    by_cases hw : wantsBuild gconds mrows e = true
    · simp only [List.filter_cons_of_pos hw, List.map_cons, List.mem_cons]
      constructor
      · intro h
        rcases h with (h | ⟨_, rfl⟩) | h
        · exact Or.inl h
        · exact Or.inr (Or.inl rfl)
        · exact Or.inr (Or.inr h)
      · intro h
        rcases h with h | rfl | h
        · exact Or.inl (Or.inl h)
        · exact Or.inl (Or.inr ⟨hw, rfl⟩)
        · exact Or.inr h
    · rw [List.filter_cons_of_neg (by simpa using hw)]
      constructor
      · intro h
        rcases h with (h | ⟨hw2, _⟩) | h
        · exact Or.inl h
        · exact absurd hw2 hw
        · exact Or.inr h
      · intro h
        rcases h with h | h
        · exact Or.inl (Or.inl h)
        · exact Or.inr h

/-- C7: within one work item's entry batch — one cache lifetime — the
expensive diagram constructor runs exactly once per distinct group key that
any cache-consulting entry requests (and zero times for unrequested keys), so
a second request with an equal group key is served from the cache: the loop
completes without error, every cached object is the one built for its key,
and exactly one timing row is emitted per build. -/
theorem diagram_cache_builds_once {α : Type} (cs : List String)
    (gconds : List Cond) (mrows : List (String × Cond))
    (entries : List PEntry) (buildFn : List PEntry → GKey → α)
    (evalFn : α → PEntry → Cond → Int) (solids : List PEntry)
    (hval : ∀ e ∈ solids, (matchId e.entryId).isSome) :
    (entriesLoop cs gconds mrows entries buildFn evalFn {} solids).2 =
      none ∧
    (∀ gk : GKey, (entriesLoop cs gconds mrows entries buildFn evalFn {}
        solids).1.builds.count gk =
      if gk ∈ (solids.filter (wantsBuild gconds mrows)).map (gkeyOf cs)
      then 1 else 0) ∧
    (entriesLoop cs gconds mrows entries buildFn evalFn {}
        solids).1.diagRows.length =
      (entriesLoop cs gconds mrows entries buildFn evalFn {}
        solids).1.builds.length ∧
    ∀ kv ∈ (entriesLoop cs gconds mrows entries buildFn evalFn {}
        solids).1.cache, kv.2 = buildFn entries kv.1 := by
  have hinv0 : CacheInv entries buildFn ({} : BatchState α) := by
    refine ⟨?_, ?_, ?_, ?_⟩
    · intro gk
      constructor
      · intro h
        simp [List.lookup] at h
      · intro h
        simp at h
    · exact List.nodup_nil
    · rfl
    · intro kv hkv
      simp at hkv
  obtain ⟨hnone, hinv, hbuilds⟩ := entriesLoop_spec cs gconds mrows entries
    buildFn evalFn solids {} hval hinv0
  refine ⟨hnone, ?_, hinv.2.2.1, hinv.2.2.2⟩
  intro gk
  by_cases hmem : gk ∈ (solids.filter (wantsBuild gconds mrows)).map
      (gkeyOf cs)
  · rw [if_pos hmem]
    exact List.count_eq_one_of_mem hinv.2.1 ((hbuilds gk).mpr (Or.inr hmem))
  · rw [if_neg hmem]
    refine List.count_eq_zero_of_not_mem ?_
    intro hcon
    rcases (hbuilds gk).mp hcon with h | h
    · simp at h
    · exact hmem h

/-- The two solid entries of the C7 witness: equal compositions over `Cu`. -/
def c7Entries : List PEntry :=
  [{ name := "CuO", entryId := "mp-1", phaseType := "Solid",
     comp := [("Cu", 1)] },
   { name := "CuO2", entryId := "mp-2", phaseType := "Solid",
     comp := [("Cu", 1)] }]

/-- Witness for C7: two solid entries with the same composition over `Cu`,
one global condition — one build, one timing row, both entries served. -/
theorem diagram_cache_builds_once_witness :
    (entriesLoop ["Cu"] [(1, 2)] [] [] (fun _ gk => gk) (fun _ _ _ => 0) {}
      c7Entries).2 = none ∧
    (∀ gk : GKey, (entriesLoop ["Cu"] [(1, 2)] [] [] (fun _ gk => gk)
        (fun _ _ _ => 0) {} c7Entries).1.builds.count gk =
      if gk ∈ (c7Entries.filter (wantsBuild [(1, 2)] [])).map (gkeyOf ["Cu"])
      then 1 else 0) ∧
    (entriesLoop ["Cu"] [(1, 2)] [] [] (fun _ gk => gk) (fun _ _ _ => 0) {}
        c7Entries).1.diagRows.length =
      (entriesLoop ["Cu"] [(1, 2)] [] [] (fun _ gk => gk) (fun _ _ _ => 0) {}
        c7Entries).1.builds.length ∧
    ∀ kv ∈ (entriesLoop ["Cu"] [(1, 2)] [] [] (fun _ gk => gk)
        (fun _ _ _ => 0) {} c7Entries).1.cache,
      kv.2 = (fun (_ : List PEntry) (gk : GKey) => gk) [] kv.1 :=
  diagram_cache_builds_once ["Cu"] [(1, 2)] [] [] (fun _ gk => gk)
    (fun _ _ _ => 0) c7Entries (by decide)

end OerAcid
